import Mathlib

/-! Shallow embedding of the exercism command-line client (srt32/cli): the
local save engine (main.SaveAssignment and handlers.Item.Save), the
submission path resolver of the submit action, the test-file detector
IsTest, and the request construction / submit response handling of the
remote exchange client. Paths and byte strings are modelled as lists of
characters (the Go source operates on bytes; every input of interest is
ASCII), and the filesystem as an explicit state record threaded through
the save loops. -/

namespace ExercismCLI

instance {ε α : Type} [DecidableEq ε] [DecidableEq α] : DecidableEq (Except ε α) := fun x y =>
  match x, y with
  | .ok a, .ok b =>
    if h : a = b then isTrue (congrArg Except.ok h)
    else isFalse (fun hh => h (Except.ok.inj hh))
  | .error a, .error b =>
    if h : a = b then isTrue (congrArg Except.error h)
    else isFalse (fun hh => h (Except.error.inj hh))
  | .ok _, .error _ => isFalse (fun hh => Except.noConfusion hh)
  | .error _, .ok _ => isFalse (fun hh => Except.noConfusion hh)

/-- A path or byte string, as a list of characters. -/
abbrev Path := List Char

/-- Explicit filesystem state: regular files with their contents, existing
directories, and the sets of paths where os.Stat fails with an error that
is not IsNotExist, or where ioutil.WriteFile fails. -/
structure FS where
  files : List (Path × String)
  dirs : List Path
  statErr : List Path
  writeErr : List Path
deriving DecidableEq

/-- Content of the regular file at a path, if one exists. -/
def FS.fileContent (fs : FS) (p : Path) : Option String :=
  (fs.files.find? (fun e => e.1 == p)).map (fun e => e.2)

/-- Whether a regular file exists at the path. -/
def FS.fileExists (fs : FS) (p : Path) : Bool :=
  (fs.fileContent p).isSome

/-- Whether a directory exists at the path. -/
def FS.dirExists (fs : FS) (p : Path) : Bool :=
  decide (p ∈ fs.dirs)

/-- Whether os.Stat at the path fails with a non-IsNotExist error. -/
def FS.hasStatErr (fs : FS) (p : Path) : Bool :=
  decide (p ∈ fs.statErr)

/-- Whether ioutil.WriteFile at the path fails. -/
def FS.hasWriteErr (fs : FS) (p : Path) : Bool :=
  decide (p ∈ fs.writeErr)

/-- The three outcomes of os.Stat the source distinguishes. -/
inductive StatResult where
  | ok
  | notExist
  | otherError
deriving DecidableEq

/-- Outcome of os.Stat on the model filesystem. -/
def FS.stat (fs : FS) (p : Path) : StatResult :=
  if fs.hasStatErr p then .otherError
  else if fs.fileExists p || fs.dirExists p then .ok
  else .notExist

/-- ioutil.WriteFile on a path at which no file exists yet. -/
def FS.writeFile (fs : FS) (p : Path) (text : String) : FS :=
  { fs with files := (p, text) :: fs.files }

/-- Go filepath.Dir, for paths that are already clean (no "." or ".."
components, no repeated separators): everything before the last separator
with trailing separators trimmed, "." when there is no separator, "/" when
the only separator is leading. -/
def goDir (p : Path) : Path :=
  let pre := (p.reverse.dropWhile (fun c => c != '/')).reverse
  if pre = [] then ['.']
  else
    let t := (pre.reverse.dropWhile (fun c => c == '/')).reverse
    if t = [] then ['/'] else t

/-- The chain of directories os.MkdirAll creates for a path: the path
itself and its ancestors, up to "." or "/". The fuel argument bounds the
recursion; goDir strictly shortens any path it does not fix. -/
def mkdirChain : Nat → Path → List Path
  | 0, p => [p]
  | n + 1, p =>
    let d := goDir p
    if d = p ∨ d = ['.'] ∨ d = ['/'] then [p] else p :: mkdirChain n d

/-- os.MkdirAll: creates the directory and every missing ancestor; fails
when a regular file sits at the path or at one of its ancestors. -/
def FS.mkdirAll (fs : FS) (p : Path) : Option FS :=
  if (mkdirChain p.length p).any (fun q => fs.fileExists q) then none
  else some { fs with dirs := mkdirChain p.length p ++ fs.dirs }

/-- Remote assignment descriptor (main.Assignment); the files mapping is
kept as an ordered association list of name to content. -/
structure Assignment where
  track : Path
  slug : Path
  files : List (Path × String)
  isFresh : Bool
deriving DecidableEq

/-- Result of a save pass of main.SaveAssignment: the final filesystem,
the list of paths written, and the returned error (none = nil). -/
structure SaveOut where
  fs : FS
  written : List Path
  err : Option String
deriving DecidableEq

/-- The per-file loop of main.SaveAssignment: make the parent directories,
stat the target, and write only when the stat error is IsNotExist; a stat
failure that is not IsNotExist silently skips the file. -/
def saveLoop (root : Path) : List (Path × String) → FS → List Path → SaveOut
  | [], fs, written => ⟨fs, written, none⟩
  | (name, text) :: rest, fs, written =>
    let file := root ++ '/' :: name
    match fs.mkdirAll (goDir file) with
    | none => ⟨fs, written, some "Error making directory"⟩
    | some fs1 =>
      match fs1.stat file with
      | .ok => saveLoop root rest fs1 written
      | .otherError => saveLoop root rest fs1 written
      | .notExist =>
        if fs1.hasWriteErr file then ⟨fs1, written, some "Error writing file"⟩
        else saveLoop root rest (fs1.writeFile file text) (written ++ [file])

/-- main.SaveAssignment: root is dir/track/slug, then the per-file loop. -/
def SaveAssignment (dir : Path) (a : Assignment) (fs : FS) : SaveOut :=
  saveLoop (dir ++ '/' :: a.track ++ '/' :: a.slug) a.files fs []

/-- handlers.Item: the exercise directory, the problem id, the file
mapping, and the two classification flags. -/
structure Item where
  dir : Path
  id : Path
  files : List (Path × String)
  isNew : Bool
  isUpdated : Bool
deriving DecidableEq

/-- handlers.Item.Path: dir/id. -/
def Item.path (it : Item) : Path := it.dir ++ '/' :: it.id

/-- The save classification the spec derives from an Item's flags. -/
inductive SaveResult where
  | New
  | Updated
  | Unchanged
deriving DecidableEq

/-- Classification encoded by an Item's flags after save. -/
def Item.classification (it : Item) : SaveResult :=
  if it.isNew then .New else if it.isUpdated then .Updated else .Unchanged

/-- State of the per-file loop of handlers.Item.Save: the two flags, the
filesystem, the written paths and the error. -/
structure ItemLoopOut where
  isNew : Bool
  isUpdated : Bool
  fs : FS
  written : List Path
  err : Option String
deriving DecidableEq

/-- The per-file loop of handlers.Item.Save: unlike main.SaveAssignment, a
stat failure other than IsNotExist aborts with the error, and a missing
file sets isUpdated (unless isNew) before being written. -/
def itemLoop (dir id : Path) : List (Path × String) → Bool → Bool → FS → List Path → ItemLoopOut
  | [], n, u, fs, written => ⟨n, u, fs, written, none⟩
  | (name, text) :: rest, n, u, fs, written =>
    let file := dir ++ '/' :: id ++ '/' :: name
    match fs.mkdirAll (goDir file) with
    | none => ⟨n, u, fs, written, some "Error making directory"⟩
    | some fs1 =>
      match fs1.stat file with
      | .ok => itemLoop dir id rest n u fs1 written
      | .otherError => ⟨n, u, fs1, written, some "Error checking file"⟩
      | .notExist =>
        let u1 := if n then u else true
        if fs1.hasWriteErr file then ⟨n, u1, fs1, written, some "Error writing file"⟩
        else itemLoop dir id rest n u1 (fs1.writeFile file text) (written ++ [file])

/-- Result of handlers.Item.Save: the item with its updated flags, the
final filesystem, the written paths and the returned error. -/
structure ItemSaveOut where
  item : Item
  fs : FS
  written : List Path
  err : Option String
deriving DecidableEq

/-- handlers.Item.Save: stat the item directory first (a non-IsNotExist
failure aborts; absence sets isNew), then run the per-file loop. -/
def Item.save (it : Item) (fs : FS) : ItemSaveOut :=
  match fs.stat it.path with
  | .otherError => ⟨it, fs, [], some "Error checking directory"⟩
  | .notExist =>
    let o := itemLoop it.dir it.id it.files true it.isUpdated fs []
    ⟨{ it with isNew := o.isNew, isUpdated := o.isUpdated }, o.fs, o.written, o.err⟩
  | .ok =>
    let o := itemLoop it.dir it.id it.files it.isNew it.isUpdated fs []
    ⟨{ it with isNew := o.isNew, isUpdated := o.isUpdated }, o.fs, o.written, o.err⟩

/-- The fixed per-language test-file suffix table (main.testExtensions). -/
def testExtensions : List (String × String) :=
  [("ruby", "_test.rb"), ("js", ".spec.js"), ("elixir", "_test.exs"),
   ("clojure", "_test.clj"), ("python", "_test.py"), ("go", "_test.go"),
   ("haskell", "_test.hs"), ("cpp", "_test.cpp")]

/-- Go strings.LastIndex: the index of the last occurrence of sub in s,
or -1 when sub does not occur. -/
def goLastIndex (s sub : Path) : Int :=
  match (((List.range (s.length + 1)).filter
      (fun i => sub.isPrefixOf (s.drop i))).max?) with
  | some i => (i : Int)
  | none => -1

/-- main.IsTest on a path: some test suffix occurs at an index above 0. -/
def IsTestL (filename : Path) : Bool :=
  testExtensions.any (fun e => decide (0 < goLastIndex filename e.2.toList))

/-- main.IsTest. -/
def IsTest (filename : String) : Bool := IsTestL filename.toList

/-- Failures of the submit action's path validation, in source order:
the resolved absolute path lies outside the exercise directory, or the
relative path looks like a test file. -/
inductive ResolveFailure where
  | OutsideProject (absPath exDir : Path)
  | IsTestFile
deriving DecidableEq

/-- The path validation of the submit action in main: require the resolved
absolute path to start with dir plus the separator, strip that prefix, and
reject relative paths that IsTest flags. -/
def resolveSubmitPath (dir : Path) (absPath : Path) : Except ResolveFailure Path :=
  let exDir := dir ++ ['/']
  if exDir.isPrefixOf absPath then
    let rel := absPath.drop exDir.length
    if IsTestL rel then .error .IsTestFile else .ok rel
  else .error (.OutsideProject absPath exDir)

/-- main.Version. -/
def Version : String := "1.7.0"

/-- main.UserAgent, parameterized by runtime.GOOS and runtime.GOARCH. -/
def UserAgent (goos goarch : String) : String :=
  "github.com/exercism/cli v" ++ Version ++ " (" ++ goos ++ "/" ++ goarch ++ ")"

/-- The configuration record the client reads (hostname, API key, exercise
directory). -/
structure Config where
  hostname : String
  apiKey : String
  dir : String
deriving DecidableEq

/-- An outbound HTTP request as the source constructs it: method, URL,
the headers the source explicitly sets, and the body. -/
structure HttpRequest where
  method : String
  url : String
  headers : List (String × String)
  body : Option String
deriving DecidableEq

/-- Escape a character for a JSON string literal (quote and backslash; the
inputs of interest contain neither). -/
def jsonEscapeChar (c : Char) : List Char :=
  if c = '\"' then ['\\', '\"'] else if c = '\\' then ['\\', '\\'] else [c]

/-- Serialize a JSON string literal. -/
def jsonString (s : String) : String :=
  ⟨'\"' :: (s.toList.flatMap jsonEscapeChar) ++ ['\"']⟩

/-- json.Marshal of main.submitRequest: the key, code, path object. -/
def submitRequestJSON (key code path : String) : String :=
  "\x7b\"key\":" ++ jsonString key ++ ",\"code\":" ++ jsonString code ++
    ",\"path\":" ++ jsonString path ++ "\x7d"

/-- The GET request main.FetchAssignments constructs: query key in the
URL; the source sets no header on this request. -/
def fetchRequest (c : Config) (path : String) : HttpRequest :=
  { method := "GET", url := c.hostname ++ path ++ "?key=" ++ c.apiKey,
    headers := [], body := none }

/-- The POST request main.SubmitAssignment constructs: the JSON body and
the User-Agent and Content-Type headers. -/
def submitHttpRequest (goos goarch : String) (c : Config) (filePath code : String) : HttpRequest :=
  { method := "POST", url := c.hostname ++ "/" ++ "api/v1/user/assignments",
    headers := [("User-Agent", UserAgent goos goarch), ("Content-Type", "application/json")],
    body := some (submitRequestJSON c.apiKey code filePath) }

/-- The DELETE request main.UnsubmitAssignment constructs: query key in
the URL and the User-Agent header. -/
def unsubmitHttpRequest (goos goarch : String) (c : Config) : HttpRequest :=
  { method := "DELETE",
    url := c.hostname ++ "/" ++ "api/v1/user/assignments" ++ "?key=" ++ c.apiKey,
    headers := [("User-Agent", UserAgent goos goarch)], body := none }

/-- The whole submit action after the absolute path is resolved: validate
the path against the exercise directory, then construct the POST request;
on a validation failure no request value is produced. -/
def submitAction (goos goarch : String) (c : Config) (absPath : Path) (code : String) :
    Except ResolveFailure HttpRequest :=
  match resolveSubmitPath c.dir.toList absPath with
  | .error e => .error e
  | .ok rel => .ok (submitHttpRequest goos goarch c (String.mk rel) code)

/-- main.submitResponse: the JSON fields the client reads back. -/
structure SubmitResponse where
  id : String
  status : String
  language : String
  exercise : String
  submissionPath : String
  error : String
deriving DecidableEq

/-- Skip JSON whitespace. -/
def skipWs (s : Path) : Path :=
  s.dropWhile (fun c => c == ' ' || c == '\n' || c == '\t' || c == '\r')

/-- Parse a JSON string literal without escapes (the bodies of interest
contain none): the content and the remainder. -/
def parseStringLit : Path → Option (Path × Path)
  | '\"' :: rest =>
    let content := rest.takeWhile (fun c => c != '\"')
    match rest.dropWhile (fun c => c != '\"') with
    | '\"' :: r => some (content, r)
    | _ => none
  | _ => none

/-- Parse one or more comma-separated string-valued members of a JSON
object, fueled by the input length. -/
def parsePairs : Nat → Path → Option (List (Path × Path) × Path)
  | 0, _ => none
  | n + 1, s =>
    match parseStringLit (skipWs s) with
    | none => none
    | some (k, r1) =>
      match skipWs r1 with
      | ':' :: r2 =>
        match parseStringLit (skipWs r2) with
        | none => none
        | some (v, r3) =>
          match skipWs r3 with
          | ',' :: r4 => (parsePairs n r4).map (fun pr => ((k, v) :: pr.1, pr.2))
          | r4 => some ([(k, v)], r4)
      | _ => none

/-- Model of encoding/json.Unmarshal for the flat, string-valued objects
the service returns: the member list of a single JSON object, or none on
malformed input. -/
def parseJsonObj (s : Path) : Option (List (Path × Path)) :=
  match skipWs s with
  | '\x7b' :: r =>
    match skipWs r with
    | '\x7d' :: r2 => if skipWs r2 = [] then some [] else none
    | r1 =>
      match parsePairs r1.length r1 with
      | some (ps, rest) =>
        match skipWs rest with
        | '\x7d' :: r2 => if skipWs r2 = [] then some ps else none
        | _ => none
      | none => none
  | _ => none

/-- Field lookup with the Go zero value for absent members. -/
def lookupField (ps : List (Path × Path)) (k : String) : String :=
  match ps.find? (fun e => e.1 == k.toList) with
  | some e => ⟨e.2⟩
  | none => ""

/-- json.Unmarshal of a body into main.submitResponse: unknown members are
ignored and absent members default to the empty string. -/
def parseSubmitResponse (body : String) : Option SubmitResponse :=
  (parseJsonObj body.toList).map (fun ps =>
    { id := lookupField ps "id", status := lookupField ps "status",
      language := lookupField ps "language", exercise := lookupField ps "exercise",
      submissionPath := lookupField ps "submission_path", error := lookupField ps "error" })

/-- Go fmt %v of the submitResponse struct: the fields, space-separated,
between braces. -/
def formatSubmitResponse (r : SubmitResponse) : String :=
  "\x7b" ++ r.id ++ " " ++ r.status ++ " " ++ r.language ++ " " ++ r.exercise ++
    " " ++ r.submissionPath ++ " " ++ r.error ++ "\x7d"

/-- The response handling of main.SubmitAssignment: status 201 parses the
body and returns the response; any other status parses the body and fails
with a message embedding the status code and the formatted payload; a
malformed body is itself an error. -/
def handleSubmitResponse (status : Nat) (body : String) : Except String SubmitResponse :=
  if status ≠ 201 then
    match parseSubmitResponse body with
    | none => .error "invalid JSON"
    | some r => .error ("Status: " ++ toString status ++ ", Error: " ++ formatSubmitResponse r)
  else
    match parseSubmitResponse body with
    | none => .error "Error parsing API response"
    | some r => .ok r

/-- Substring test, for stating that an error message embeds a value. -/
def containsSubstr (hay needle : String) : Bool :=
  (List.range (hay.toList.length + 1)).any
    (fun i => needle.toList.isPrefixOf (hay.toList.drop i))

/-! General helper lemmas about lists, paths and the filesystem model. -/

theorem isPrefixOf_app_self (l r : Path) : l.isPrefixOf (l ++ r) = true := by
  induction l with
  | nil => simp [List.isPrefixOf]
  | cons c cs ih => simpa [List.isPrefixOf] using ih

theorem isPrefixOf_self (l : Path) : l.isPrefixOf l = true := by
  simpa using isPrefixOf_app_self l []

theorem drop_app_sep (d rel : Path) : (d ++ '/' :: rel).drop (d.length + 1) = rel := by
  have e : d ++ '/' :: rel = (d ++ ['/']) ++ rel := by simp
  have e2 : d.length + 1 = (d ++ ['/']).length := by simp
  rw [e, e2, List.drop_left]

theorem find?_key_cons_of_ne {q p : Path} {t : String} {l : List (Path × String)}
    (h : q ≠ p) :
    ((q, t) :: l).find? (fun e => e.1 == p) = l.find? (fun e => e.1 == p) := by
  apply List.find?_cons_of_neg
  simpa using h

theorem find?_key_app_of_none {E l : List (Path × String)} {q : Path}
    (h : ∀ e ∈ E, ¬ e.1 = q) :
    (E ++ l).find? (fun e => e.1 == q) = l.find? (fun e => e.1 == q) := by
  induction E with
  | nil => rfl
  | cons e es ih =>
    rw [List.cons_append, List.find?_cons_of_neg, ih]
    · intro x hx
      exact h x (List.mem_cons_of_mem e hx)
    · simpa using h e (List.mem_cons_self e es)

theorem fileContent_some_fileExists {fs : FS} {p : Path} {C : String}
    (h : fs.fileContent p = some C) : fs.fileExists p = true := by
  simp [FS.fileExists, h]

theorem stat_notExist_not_fileExists {fs : FS} {p : Path}
    (h : fs.stat p = .notExist) : fs.fileExists p = false := by
  unfold FS.stat at h
  split at h
  · exact absurd h (by simp)
  · split at h
    · exact absurd h (by simp)
    · rename_i hex
      simp only [Bool.or_eq_true, not_or] at hex
      exact Bool.eq_false_iff.mpr hex.1

theorem stat_notExist_not_statErr {fs : FS} {p : Path}
    (h : fs.stat p = .notExist) : fs.hasStatErr p = false := by
  unfold FS.stat at h
  split at h
  · exact absurd h (by simp)
  · rename_i hse
    exact Bool.eq_false_iff.mpr hse

theorem stat_ok_not_statErr {fs : FS} {p : Path}
    (h : fs.stat p = .ok) : fs.hasStatErr p = false := by
  unfold FS.stat at h
  split at h
  · exact absurd h (by simp)
  · rename_i hse
    exact Bool.eq_false_iff.mpr hse

theorem statErr_eq_stat_otherError {fs : FS} {p : Path}
    (h : fs.hasStatErr p = true) : fs.stat p = .otherError := by
  simp [FS.stat, h]

theorem stat_ok_of_parts {fs : FS} {p : Path}
    (hse : fs.hasStatErr p = false) (hex : fs.fileExists p = true ∨ fs.dirExists p = true) :
    fs.stat p = .ok := by
  unfold FS.stat
  rw [hse]
  simp only [Bool.false_eq_true, if_false]
  rcases hex with hx | hx <;> simp [hx]

theorem mkdirAll_some_spec {fs fs1 : FS} {d : Path}
    (h : fs.mkdirAll d = some fs1) :
    fs1.files = fs.files ∧ fs1.statErr = fs.statErr ∧ fs1.writeErr = fs.writeErr ∧
    fs1.dirs = mkdirChain d.length d ++ fs.dirs ∧
    ∀ q ∈ mkdirChain d.length d, fs.fileExists q = false := by
  unfold FS.mkdirAll at h
  split at h
  · exact absurd h (by simp)
  · rename_i hany
    injection h with h
    subst h
    refine ⟨rfl, rfl, rfl, rfl, ?_⟩
    intro q hq
    by_contra hqf
    exact hany (List.any_eq_true.mpr ⟨q, hq, by simpa using hqf⟩)

theorem writeFile_content_other {fs : FS} {p q : Path} {t : String} (h : q ≠ p) :
    (fs.writeFile q t).fileContent p = fs.fileContent p := by
  simp only [FS.writeFile, FS.fileContent]
  rw [find?_key_cons_of_ne h]

theorem writeFile_content_self (fs : FS) (q : Path) (t : String) :
    (fs.writeFile q t).fileContent q = some t := by
  simp only [FS.writeFile, FS.fileContent]
  rw [List.find?_cons_of_pos _ (by simp)]
  rfl

theorem fileContent_congr {fs1 fs : FS} (hf : fs1.files = fs.files) (p : Path) :
    fs1.fileContent p = fs.fileContent p := by
  simp [FS.fileContent, hf]

theorem content_none_of_not_fileExists {fs : FS} {p : Path}
    (h : fs.fileExists p = false) : fs.fileContent p = none := by
  unfold FS.fileExists at h
  cases hc : fs.fileContent p with
  | none => rfl
  | some c => rw [hc] at h; simp at h

theorem content_none_of_writeFile_none {fs : FS} {p q : Path} {t : String}
    (h : (fs.writeFile q t).fileContent p = none) : fs.fileContent p = none := by
  by_cases hpq : q = p
  · subst hpq
    rw [writeFile_content_self] at h
    cases h
  · rwa [writeFile_content_other hpq] at h

theorem mkdirAll_some_of_nofile {fs : FS} {p : Path}
    (h : ∀ q ∈ mkdirChain p.length p, fs.fileExists q = false) :
    fs.mkdirAll p = some { fs with dirs := mkdirChain p.length p ++ fs.dirs } := by
  unfold FS.mkdirAll
  rw [if_neg]
  intro hany
  obtain ⟨q, hq, hqf⟩ := List.any_eq_true.mp hany
  rw [h q hq] at hqf
  cases hqf

/-! Step equations for the two save loops, one per source branch. -/

theorem saveLoop_cons_mkdir_none {root name : Path} {text : String} {tl : List (Path × String)}
    {fs : FS} {w : List Path}
    (hmk : fs.mkdirAll (goDir (root ++ '/' :: name)) = none) :
    saveLoop root ((name, text) :: tl) fs w = ⟨fs, w, some "Error making directory"⟩ := by
  simp only [saveLoop, hmk]

theorem saveLoop_cons_ok {root name : Path} {text : String} {tl : List (Path × String)}
    {fs fs1 : FS} {w : List Path}
    (hmk : fs.mkdirAll (goDir (root ++ '/' :: name)) = some fs1)
    (hst : fs1.stat (root ++ '/' :: name) = .ok) :
    saveLoop root ((name, text) :: tl) fs w = saveLoop root tl fs1 w := by
  simp only [saveLoop, hmk, hst]

theorem saveLoop_cons_statErr {root name : Path} {text : String} {tl : List (Path × String)}
    {fs fs1 : FS} {w : List Path}
    (hmk : fs.mkdirAll (goDir (root ++ '/' :: name)) = some fs1)
    (hst : fs1.stat (root ++ '/' :: name) = .otherError) :
    saveLoop root ((name, text) :: tl) fs w = saveLoop root tl fs1 w := by
  simp only [saveLoop, hmk, hst]

theorem saveLoop_cons_writeErr {root name : Path} {text : String} {tl : List (Path × String)}
    {fs fs1 : FS} {w : List Path}
    (hmk : fs.mkdirAll (goDir (root ++ '/' :: name)) = some fs1)
    (hst : fs1.stat (root ++ '/' :: name) = .notExist)
    (hwe : fs1.hasWriteErr (root ++ '/' :: name) = true) :
    saveLoop root ((name, text) :: tl) fs w = ⟨fs1, w, some "Error writing file"⟩ := by
  simp only [saveLoop, hmk, hst, hwe, if_true]

theorem saveLoop_cons_write {root name : Path} {text : String} {tl : List (Path × String)}
    {fs fs1 : FS} {w : List Path}
    (hmk : fs.mkdirAll (goDir (root ++ '/' :: name)) = some fs1)
    (hst : fs1.stat (root ++ '/' :: name) = .notExist)
    (hwe : fs1.hasWriteErr (root ++ '/' :: name) = false) :
    saveLoop root ((name, text) :: tl) fs w =
      saveLoop root tl (fs1.writeFile (root ++ '/' :: name) text)
        (w ++ [root ++ '/' :: name]) := by
  simp only [saveLoop, hmk, hst, hwe]
  rw [if_neg (by decide)]

theorem itemLoop_cons_mkdir_none {dir id name : Path} {text : String}
    {tl : List (Path × String)} {n u : Bool} {fs : FS} {w : List Path}
    (hmk : fs.mkdirAll (goDir (dir ++ '/' :: id ++ '/' :: name)) = none) :
    itemLoop dir id ((name, text) :: tl) n u fs w =
      ⟨n, u, fs, w, some "Error making directory"⟩ := by
  simp only [itemLoop, hmk]

theorem itemLoop_cons_ok {dir id name : Path} {text : String}
    {tl : List (Path × String)} {n u : Bool} {fs fs1 : FS} {w : List Path}
    (hmk : fs.mkdirAll (goDir (dir ++ '/' :: id ++ '/' :: name)) = some fs1)
    (hst : fs1.stat (dir ++ '/' :: id ++ '/' :: name) = .ok) :
    itemLoop dir id ((name, text) :: tl) n u fs w = itemLoop dir id tl n u fs1 w := by
  simp only [itemLoop, hmk, hst]

theorem itemLoop_cons_statErr {dir id name : Path} {text : String}
    {tl : List (Path × String)} {n u : Bool} {fs fs1 : FS} {w : List Path}
    (hmk : fs.mkdirAll (goDir (dir ++ '/' :: id ++ '/' :: name)) = some fs1)
    (hst : fs1.stat (dir ++ '/' :: id ++ '/' :: name) = .otherError) :
    itemLoop dir id ((name, text) :: tl) n u fs w =
      ⟨n, u, fs1, w, some "Error checking file"⟩ := by
  simp only [itemLoop, hmk, hst]

theorem itemLoop_cons_writeErr {dir id name : Path} {text : String}
    {tl : List (Path × String)} {n u : Bool} {fs fs1 : FS} {w : List Path}
    (hmk : fs.mkdirAll (goDir (dir ++ '/' :: id ++ '/' :: name)) = some fs1)
    (hst : fs1.stat (dir ++ '/' :: id ++ '/' :: name) = .notExist)
    (hwe : fs1.hasWriteErr (dir ++ '/' :: id ++ '/' :: name) = true) :
    itemLoop dir id ((name, text) :: tl) n u fs w =
      ⟨n, if n then u else true, fs1, w, some "Error writing file"⟩ := by
  simp only [itemLoop, hmk, hst, hwe, if_true]

theorem itemLoop_cons_write {dir id name : Path} {text : String}
    {tl : List (Path × String)} {n u : Bool} {fs fs1 : FS} {w : List Path}
    (hmk : fs.mkdirAll (goDir (dir ++ '/' :: id ++ '/' :: name)) = some fs1)
    (hst : fs1.stat (dir ++ '/' :: id ++ '/' :: name) = .notExist)
    (hwe : fs1.hasWriteErr (dir ++ '/' :: id ++ '/' :: name) = false) :
    itemLoop dir id ((name, text) :: tl) n u fs w =
      itemLoop dir id tl n (if n then u else true)
        (fs1.writeFile (dir ++ '/' :: id ++ '/' :: name) text)
        (w ++ [dir ++ '/' :: id ++ '/' :: name]) := by
  simp only [itemLoop, hmk, hst, hwe]
  rw [if_neg (by decide)]

/-- Decomposition of the filesystem after the SaveAssignment loop: files
grow by entries for paths that had no file before, directories only grow,
and the stat/write fault sets are untouched. -/
theorem saveLoop_fs_spec (root : Path) (l : List (Path × String)) :
    ∀ (fs : FS) (w : List Path), ∃ E D,
      (saveLoop root l fs w).fs.files = E ++ fs.files ∧
      (saveLoop root l fs w).fs.dirs = D ++ fs.dirs ∧
      (saveLoop root l fs w).fs.statErr = fs.statErr ∧
      (saveLoop root l fs w).fs.writeErr = fs.writeErr ∧
      ∀ e ∈ E, fs.fileContent e.1 = none ∧
        ∃ nm tx, (nm, tx) ∈ l ∧ e.1 = root ++ '/' :: nm := by
  induction l with
  | nil =>
    intro fs w
    exact ⟨[], [], rfl, rfl, rfl, rfl, by simp⟩
  | cons hd tl ih =>
    intro fs w
    obtain ⟨name, text⟩ := hd
    cases hmk : fs.mkdirAll (goDir (root ++ '/' :: name)) with
    | none =>
      rw [saveLoop_cons_mkdir_none hmk]
      exact ⟨[], [], rfl, rfl, rfl, rfl, by simp⟩
    | some fs1 =>
      obtain ⟨hf1, hs1, hw1, hd1, _⟩ := mkdirAll_some_spec hmk
      cases hst : fs1.stat (root ++ '/' :: name) with
      | ok =>
        rw [saveLoop_cons_ok hmk hst]
        obtain ⟨E, D, hE, hD, hS, hW, hprop⟩ := ih fs1 w
        refine ⟨E, D ++ mkdirChain (goDir (root ++ '/' :: name)).length
          (goDir (root ++ '/' :: name)), ?_, ?_, ?_, ?_, ?_⟩
        · rw [hE, hf1]
        · rw [hD, hd1]
          simp
        · rw [hS, hs1]
        · rw [hW, hw1]
        · intro e he
          obtain ⟨hnone, nm, tx, hmem, heq⟩ := hprop e he
          refine ⟨?_, nm, tx, List.mem_cons_of_mem _ hmem, heq⟩
          rwa [fileContent_congr hf1] at hnone
      | otherError =>
        rw [saveLoop_cons_statErr hmk hst]
        obtain ⟨E, D, hE, hD, hS, hW, hprop⟩ := ih fs1 w
        refine ⟨E, D ++ mkdirChain (goDir (root ++ '/' :: name)).length
          (goDir (root ++ '/' :: name)), ?_, ?_, ?_, ?_, ?_⟩
        · rw [hE, hf1]
        · rw [hD, hd1]
          simp
        · rw [hS, hs1]
        · rw [hW, hw1]
        · intro e he
          obtain ⟨hnone, nm, tx, hmem, heq⟩ := hprop e he
          refine ⟨?_, nm, tx, List.mem_cons_of_mem _ hmem, heq⟩
          rwa [fileContent_congr hf1] at hnone
      | notExist =>
        by_cases hwe : fs1.hasWriteErr (root ++ '/' :: name) = true
        · rw [saveLoop_cons_writeErr hmk hst hwe]
          refine ⟨[], mkdirChain (goDir (root ++ '/' :: name)).length
            (goDir (root ++ '/' :: name)), ?_, ?_, ?_, ?_, by simp⟩
          · simp [hf1]
          · rw [hd1]
          · rw [hs1]
          · rw [hw1]
        · rw [saveLoop_cons_write hmk hst (Bool.eq_false_iff.mpr hwe)]
          obtain ⟨E, D, hE, hD, hS, hW, hprop⟩ :=
            ih (fs1.writeFile (root ++ '/' :: name) text) (w ++ [root ++ '/' :: name])
          have hcontent : fs.fileContent (root ++ '/' :: name) = none := by
            rw [← fileContent_congr hf1 (root ++ '/' :: name)]
            exact content_none_of_not_fileExists (stat_notExist_not_fileExists hst)
          refine ⟨E ++ [(root ++ '/' :: name, text)],
            D ++ mkdirChain (goDir (root ++ '/' :: name)).length
              (goDir (root ++ '/' :: name)), ?_, ?_, ?_, ?_, ?_⟩
          · rw [hE]
            simp only [FS.writeFile]
            rw [hf1]
            simp
          · rw [hD]
            simp only [FS.writeFile]
            rw [hd1]
            simp
          · rw [hS]; exact hs1
          · rw [hW]; exact hw1
          · intro e he
            rcases List.mem_append.mp he with heE | hehd
            · obtain ⟨hnone, nm, tx, hmem, heq⟩ := hprop e heE
              refine ⟨?_, nm, tx, List.mem_cons_of_mem _ hmem, heq⟩
              have := content_none_of_writeFile_none hnone
              rwa [fileContent_congr hf1] at this
            · rcases List.mem_singleton.mp hehd with rfl
              exact ⟨hcontent, name, text, List.mem_cons_self _ _, rfl⟩

/-- Decomposition of the filesystem after the Item.Save loop: same shape
as for SaveAssignment. -/
theorem itemLoop_fs_spec (dir id : Path) (l : List (Path × String)) :
    ∀ (n u : Bool) (fs : FS) (w : List Path), ∃ E D,
      (itemLoop dir id l n u fs w).fs.files = E ++ fs.files ∧
      (itemLoop dir id l n u fs w).fs.dirs = D ++ fs.dirs ∧
      (itemLoop dir id l n u fs w).fs.statErr = fs.statErr ∧
      (itemLoop dir id l n u fs w).fs.writeErr = fs.writeErr ∧
      ∀ e ∈ E, fs.fileContent e.1 = none ∧
        ∃ nm tx, (nm, tx) ∈ l ∧ e.1 = dir ++ '/' :: id ++ '/' :: nm := by
  induction l with
  | nil =>
    intro n u fs w
    exact ⟨[], [], rfl, rfl, rfl, rfl, by simp⟩
  | cons hd tl ih =>
    intro n u fs w
    obtain ⟨name, text⟩ := hd
    cases hmk : fs.mkdirAll (goDir (dir ++ '/' :: id ++ '/' :: name)) with
    | none =>
      rw [itemLoop_cons_mkdir_none hmk]
      exact ⟨[], [], rfl, rfl, rfl, rfl, by simp⟩
    | some fs1 =>
      obtain ⟨hf1, hs1, hw1, hd1, _⟩ := mkdirAll_some_spec hmk
      cases hst : fs1.stat (dir ++ '/' :: id ++ '/' :: name) with
      | ok =>
        rw [itemLoop_cons_ok hmk hst]
        obtain ⟨E, D, hE, hD, hS, hW, hprop⟩ := ih n u fs1 w
        refine ⟨E, D ++ mkdirChain (goDir (dir ++ '/' :: id ++ '/' :: name)).length
          (goDir (dir ++ '/' :: id ++ '/' :: name)), ?_, ?_, ?_, ?_, ?_⟩
        · rw [hE, hf1]
        · rw [hD, hd1]
          simp
        · rw [hS, hs1]
        · rw [hW, hw1]
        · intro e he
          obtain ⟨hnone, nm, tx, hmem, heq⟩ := hprop e he
          refine ⟨?_, nm, tx, List.mem_cons_of_mem _ hmem, heq⟩
          rwa [fileContent_congr hf1] at hnone
      | otherError =>
        rw [itemLoop_cons_statErr hmk hst]
        refine ⟨[], mkdirChain (goDir (dir ++ '/' :: id ++ '/' :: name)).length
          (goDir (dir ++ '/' :: id ++ '/' :: name)), ?_, ?_, ?_, ?_, by simp⟩
        · simp [hf1]
        · rw [hd1]
        · rw [hs1]
        · rw [hw1]
      | notExist =>
        by_cases hwe : fs1.hasWriteErr (dir ++ '/' :: id ++ '/' :: name) = true
        · rw [itemLoop_cons_writeErr hmk hst hwe]
          refine ⟨[], mkdirChain (goDir (dir ++ '/' :: id ++ '/' :: name)).length
            (goDir (dir ++ '/' :: id ++ '/' :: name)), ?_, ?_, ?_, ?_, by simp⟩
          · simp [hf1]
          · rw [hd1]
          · rw [hs1]
          · rw [hw1]
        · rw [itemLoop_cons_write hmk hst (Bool.eq_false_iff.mpr hwe)]
          obtain ⟨E, D, hE, hD, hS, hW, hprop⟩ :=
            ih n (if n then u else true)
              (fs1.writeFile (dir ++ '/' :: id ++ '/' :: name) text)
              (w ++ [dir ++ '/' :: id ++ '/' :: name])
          have hcontent : fs.fileContent (dir ++ '/' :: id ++ '/' :: name) = none := by
            rw [← fileContent_congr hf1 (dir ++ '/' :: id ++ '/' :: name)]
            exact content_none_of_not_fileExists (stat_notExist_not_fileExists hst)
          refine ⟨E ++ [(dir ++ '/' :: id ++ '/' :: name, text)],
            D ++ mkdirChain (goDir (dir ++ '/' :: id ++ '/' :: name)).length
              (goDir (dir ++ '/' :: id ++ '/' :: name)), ?_, ?_, ?_, ?_, ?_⟩
          · rw [hE]
            simp only [FS.writeFile]
            rw [hf1]
            simp
          · rw [hD]
            simp only [FS.writeFile]
            rw [hd1]
            simp
          · rw [hS]; exact hs1
          · rw [hW]; exact hw1
          · intro e he
            rcases List.mem_append.mp he with heE | hehd
            · obtain ⟨hnone, nm, tx, hmem, heq⟩ := hprop e heE
              refine ⟨?_, nm, tx, List.mem_cons_of_mem _ hmem, heq⟩
              have := content_none_of_writeFile_none hnone
              rwa [fileContent_congr hf1] at this
            · rcases List.mem_singleton.mp hehd with rfl
              exact ⟨hcontent, name, text, List.mem_cons_self _ _, rfl⟩

/-- Lift content preservation through a files decomposition whose new
entries sit at paths that had no file. -/
theorem fileContent_app_none {fs' fs : FS} {E : List (Path × String)}
    (hE : fs'.files = E ++ fs.files)
    (hnone : ∀ e ∈ E, fs.fileContent e.1 = none)
    {p : Path} {C : String} (h : fs.fileContent p = some C) :
    fs'.fileContent p = some C := by
  have hne : ∀ e ∈ E, ¬ e.1 = p := by
    intro e he heq
    have := hnone e he
    rw [heq, h] at this
    cases this
  unfold FS.fileContent at h ⊢
  rw [hE, find?_key_app_of_none hne]
  exact h

/-! Claim theorems. -/

/-- C1: the no-overwrite invariant. Any file already present with content
C before a save still has content C afterwards, for SaveAssignment under
any root and assignment and for Item.Save under any item: neither save
ever writes to a path at which a file exists, whatever the incoming remote
bytes are. -/
theorem C1_no_overwrite (fs : FS) (p : Path) (C : String)
    (h : fs.fileContent p = some C) :
    (∀ (dir : Path) (a : Assignment), (SaveAssignment dir a fs).fs.fileContent p = some C) ∧
    (∀ it : Item, (it.save fs).fs.fileContent p = some C) := by
  constructor
  · intro dir a
    obtain ⟨E, D, hE, hD, hS, hW, hprop⟩ :=
      saveLoop_fs_spec (dir ++ '/' :: a.track ++ '/' :: a.slug) a.files fs []
    exact fileContent_app_none hE (fun e he => (hprop e he).1) h
  · intro it
    unfold Item.save
    cases hst : fs.stat it.path with
    | otherError => exact h
    | notExist =>
      obtain ⟨E, D, hE, hD, hS, hW, hprop⟩ :=
        itemLoop_fs_spec it.dir it.id it.files true it.isUpdated fs []
      exact fileContent_app_none hE (fun e he => (hprop e he).1) h
    | ok =>
      obtain ⟨E, D, hE, hD, hS, hW, hprop⟩ :=
        itemLoop_fs_spec it.dir it.id it.files it.isNew it.isUpdated fs []
      exact fileContent_app_none hE (fun e he => (hprop e he).1) h

theorem C1_no_overwrite_witness :
    ((SaveAssignment "e".toList
        ⟨"go".toList, "leap".toList, [("leap.go".toList, "remote bytes")], false⟩
        ⟨[("e/go/leap/leap.go".toList, "local edits")], ["e/go/leap".toList], [], []⟩).fs.fileContent
      "e/go/leap/leap.go".toList = some "local edits") ∧
    ((Item.save ⟨"e".toList, "leap".toList, [("leap.go".toList, "remote bytes")], false, false⟩
        ⟨[("e/leap/leap.go".toList, "local edits")], ["e/leap".toList], [], []⟩).fs.fileContent
      "e/leap/leap.go".toList = some "local edits") :=
  ⟨(C1_no_overwrite ⟨[("e/go/leap/leap.go".toList, "local edits")], ["e/go/leap".toList], [], []⟩
      "e/go/leap/leap.go".toList "local edits" (by decide)).1 "e".toList
      ⟨"go".toList, "leap".toList, [("leap.go".toList, "remote bytes")], false⟩,
   (C1_no_overwrite ⟨[("e/leap/leap.go".toList, "local edits")], ["e/leap".toList], [], []⟩
      "e/leap/leap.go".toList "local edits" (by decide)).2
      ⟨"e".toList, "leap".toList, [("leap.go".toList, "remote bytes")], false, false⟩⟩

/-- C9: in SaveAssignment, a per-file existence check that fails with an
error other than not-exist silently skips the file: the loop moves on
without writing or reporting it, and for a single-file assignment the
whole save still returns nil with no file written and the files of the
filesystem untouched. -/
theorem C9_stat_error_silently_skipped :
    (∀ (root nm : Path) (tx : String) (tl : List (Path × String)) (fs fs1 : FS) (w : List Path),
      fs.mkdirAll (goDir (root ++ '/' :: nm)) = some fs1 →
      fs1.hasStatErr (root ++ '/' :: nm) = true →
      saveLoop root ((nm, tx) :: tl) fs w = saveLoop root tl fs1 w) ∧
    (∀ (dir track slug nm : Path) (tx : String) (fr : Bool) (fs : FS),
      fs.hasStatErr (dir ++ '/' :: track ++ '/' :: slug ++ '/' :: nm) = true →
      (∀ q ∈ mkdirChain (goDir (dir ++ '/' :: track ++ '/' :: slug ++ '/' :: nm)).length
          (goDir (dir ++ '/' :: track ++ '/' :: slug ++ '/' :: nm)), fs.fileExists q = false) →
      (SaveAssignment dir ⟨track, slug, [(nm, tx)], fr⟩ fs).err = none ∧
      (SaveAssignment dir ⟨track, slug, [(nm, tx)], fr⟩ fs).written = [] ∧
      (SaveAssignment dir ⟨track, slug, [(nm, tx)], fr⟩ fs).fs.files = fs.files) := by
  constructor
  · intro root nm tx tl fs fs1 w hmk hse
    exact saveLoop_cons_statErr hmk (statErr_eq_stat_otherError hse)
  · intro dir track slug nm tx fr fs hse hnof
    obtain ⟨fs1, hmk⟩ :
        ∃ fs1, fs.mkdirAll (goDir (dir ++ '/' :: track ++ '/' :: slug ++ '/' :: nm)) = some fs1 :=
      ⟨_, mkdirAll_some_of_nofile hnof⟩
    obtain ⟨hf1, hs1, hw1, hd1, _⟩ := mkdirAll_some_spec hmk
    have hse1 : fs1.hasStatErr (dir ++ '/' :: track ++ '/' :: slug ++ '/' :: nm) = true := by
      unfold FS.hasStatErr at hse ⊢
      rw [hs1]
      exact hse
    have hstep : SaveAssignment dir ⟨track, slug, [(nm, tx)], fr⟩ fs = ⟨fs1, [], none⟩ := by
      show saveLoop (dir ++ '/' :: track ++ '/' :: slug) [(nm, tx)] fs [] = _
      rw [saveLoop_cons_statErr hmk (statErr_eq_stat_otherError hse1)]
      rfl
    rw [hstep]
    exact ⟨rfl, rfl, hf1⟩

theorem C9_stat_error_silently_skipped_witness :
    ((SaveAssignment "e".toList ⟨"go".toList, "leap".toList, [("leap.go".toList, "pkg")], false⟩
        ⟨[], [], ["e/go/leap/leap.go".toList], []⟩).err = none) ∧
    ((SaveAssignment "e".toList ⟨"go".toList, "leap".toList, [("leap.go".toList, "pkg")], false⟩
        ⟨[], [], ["e/go/leap/leap.go".toList], []⟩).written = []) ∧
    ((SaveAssignment "e".toList ⟨"go".toList, "leap".toList, [("leap.go".toList, "pkg")], false⟩
        ⟨[], [], ["e/go/leap/leap.go".toList], []⟩).fs.files = []) :=
  C9_stat_error_silently_skipped.2 "e".toList "go".toList "leap".toList "leap.go".toList "pkg"
    false ⟨[], [], ["e/go/leap/leap.go".toList], []⟩ (by decide) (by decide)

/-- C10: for an assignment whose file mapping is empty, SaveAssignment
performs no filesystem writes, creates no directories (not even the
dir/track/slug root, since directory creation happens only per file), and
returns success: the filesystem comes back unchanged. -/
theorem C10_empty_mapping_no_effect (dir track slug : Path) (fr : Bool) (fs : FS) :
    SaveAssignment dir ⟨track, slug, [], fr⟩ fs = ⟨fs, [], none⟩ := rfl

/-- C4 (refuted as stated; code bug): the GET request FetchAssignments
constructs carries no header at all — in particular no User-Agent — while
the submit (POST) and unsubmit (DELETE) requests do carry
User-Agent: github.com/exercism/cli v1.7.0 (os/arch). -/
theorem C4_fetch_missing_user_agent :
    (∀ (c : Config) (path : String), (fetchRequest c path).headers = []) ∧
    (∀ (goos goarch : String) (c : Config) (fp code : String),
      ("User-Agent", UserAgent goos goarch) ∈ (submitHttpRequest goos goarch c fp code).headers) ∧
    (∀ (goos goarch : String) (c : Config),
      ("User-Agent", UserAgent goos goarch) ∈ (unsubmitHttpRequest goos goarch c).headers) := by
  refine ⟨fun c path => rfl, fun goos goarch c fp code => ?_, fun goos goarch c => ?_⟩ <;>
    simp [submitHttpRequest, unsubmitHttpRequest]

/-- C7: when the resolved absolute path is not prefixed by the exercise
directory plus separator, the submit action fails with the
outside-project error naming both paths, and no request is constructed. -/
theorem C7_outside_project (goos goarch : String) (c : Config) (absPath : Path) (code : String)
    (h : ¬ (c.dir.toList ++ ['/']) <+: absPath) :
    submitAction goos goarch c absPath code =
      .error (.OutsideProject absPath (c.dir.toList ++ ['/'])) := by
  simp only [String.toList] at h
  simp [submitAction, resolveSubmitPath, String.toList, h]

theorem C7_outside_project_witness :
    submitAction "linux" "amd64" ⟨"http://exercism.io", "key", "root"⟩ "other/a.py".toList "code" =
      .error (.OutsideProject "other/a.py".toList (("root" : String).toList ++ ['/'])) :=
  C7_outside_project "linux" "amd64" ⟨"http://exercism.io", "key", "root"⟩ "other/a.py".toList
    "code" (by decide)

/-- C8: resolving the path of a file at root/a/b/c.py against the exercise
root strips exactly the root-plus-separator prefix and returns the
relative path a/b/c.py. -/
theorem C8_round_trip (c : Config) :
    resolveSubmitPath c.dir.toList (c.dir.toList ++ '/' :: "a/b/c.py".toList) =
      .ok "a/b/c.py".toList := by
  have e : c.dir.toList ++ '/' :: "a/b/c.py".toList =
      (c.dir.toList ++ ['/']) ++ "a/b/c.py".toList := by simp
  rw [e]
  simp only [resolveSubmitPath]
  rw [isPrefixOf_app_self, List.drop_left]
  simp only [if_true]
  norm_num
  decide

/-- C6: a submit call receiving HTTP 201 parses the body as a submission
response and returns it (the example body yields id "42"); a call
receiving any other status returns no response, and on the example 422
body fails with a message embedding the status code and the
server-supplied message "bad file". -/
theorem C6_submit_status_mapping :
    (∃ r, handleSubmitResponse 201 "\x7b\"id\":\"42\",\"status\":\"ok\"\x7d" = .ok r ∧
      r.id = "42") ∧
    (∃ e, handleSubmitResponse 422 "\x7b\"error\":\"bad file\"\x7d" = .error e ∧
      containsSubstr e "bad file" = true ∧ containsSubstr e "422" = true) ∧
    (∀ (status : Nat) (body : String), status ≠ 201 →
      ∀ r, handleSubmitResponse status body ≠ .ok r) := by
  refine ⟨⟨{ id := "42", status := "ok", language := "", exercise := "",
             submissionPath := "", error := "" }, by decide, rfl⟩,
         ⟨"Status: 422, Error: \x7b     bad file\x7d", by decide, by decide, by decide⟩, ?_⟩
  intro status body h r
  simp only [handleSubmitResponse, if_pos h]
  cases parseSubmitResponse body <;> simp

theorem C6_submit_status_mapping_witness :
    handleSubmitResponse 422 "\x7b\"error\":\"bad file\"\x7d" ≠
      .ok { id := "", status := "", language := "", exercise := "",
            submissionPath := "", error := "bad file" } :=
  C6_submit_status_mapping.2.2 422 "\x7b\"error\":\"bad file\"\x7d" (by decide) _

/-- A last-occurrence index bound: when sub occurs at index i in s, the
Go strings.LastIndex result is at least i. -/
theorem goLastIndex_ge_occurrence {s sub : Path} {i : Nat}
    (hle : i ≤ s.length) (hocc : sub.isPrefixOf (s.drop i) = true) :
    (i : Int) ≤ goLastIndex s sub := by
  set l := (List.range (s.length + 1)).filter (fun j => sub.isPrefixOf (s.drop j)) with hl
  have hmem : i ∈ l := by
    rw [hl]
    exact List.mem_filter.mpr ⟨List.mem_range.mpr (Nat.lt_succ_of_le hle), hocc⟩
  cases hmax : l.max? with
  | none =>
    rw [List.max?_eq_none_iff] at hmax
    rw [hmax] at hmem
    cases hmem
  | some m =>
    have hle2 : i ≤ m :=
      ((List.max?_eq_some_iff (fun a => Nat.le_refl a) (fun a b => max_choice a b)
        (fun a b c => Nat.max_le)).mp hmax).2 i hmem
    have : goLastIndex s sub = (m : Int) := by
      simp only [goLastIndex, ← hl, hmax]
    rw [this]
    exact_mod_cast hle2

/-- A path that properly ends in one of the table suffixes is flagged. -/
theorem IsTestL_of_proper_suffix {lang ext : String}
    (hmem : (lang, ext) ∈ testExtensions) {pre : Path} (hpre : pre ≠ []) :
    IsTestL (pre ++ ext.toList) = true := by
  unfold IsTestL
  apply List.any_eq_true.mpr
  refine ⟨(lang, ext), hmem, ?_⟩
  simp only [decide_eq_true_eq]
  have hocc : ext.toList.isPrefixOf ((pre ++ ext.toList).drop pre.length) = true := by
    rw [List.drop_left]
    exact isPrefixOf_self ext.toList
  have hge := goLastIndex_ge_occurrence
    (s := pre ++ ext.toList) (i := pre.length) (by simp) hocc
  have hpos : 0 < pre.length := List.length_pos.mpr hpre
  have : (0 : Int) < (pre.length : Int) := by exact_mod_cast hpos
  exact lt_of_lt_of_le this hge

/-- Resolution of a path inside the exercise directory whose relative part
is flagged as a test file fails with the test-file error. -/
theorem resolveSubmitPath_isTest (d rel : Path) (h : IsTestL rel = true) :
    resolveSubmitPath d (d ++ '/' :: rel) = .error .IsTestFile := by
  have e : d ++ '/' :: rel = (d ++ ['/']) ++ rel := by simp
  rw [e]
  simp only [resolveSubmitPath]
  rw [isPrefixOf_app_self, List.drop_left]
  simp [h]

/-- C5: every relative path that properly ends in a test-file suffix of
the fixed per-language table is flagged by IsTest, and submitting such a
path from inside the exercise directory fails with the test-file error
before any request is constructed; a path that is exactly a suffix of the
table (the occurrence sits at index 0) is not flagged. -/
theorem C5_test_file_rejection :
    (∀ (lang ext : String), (lang, ext) ∈ testExtensions →
      ∀ (pre : Path), pre ≠ [] →
      IsTestL (pre ++ ext.toList) = true ∧
      ∀ (goos goarch : String) (c : Config) (code : String),
        submitAction goos goarch c (c.dir.toList ++ '/' :: (pre ++ ext.toList)) code =
          .error .IsTestFile) ∧
    (∀ e ∈ testExtensions, IsTestL e.2.toList = false) := by
  constructor
  · intro lang ext hmem pre hpre
    have hflag : IsTestL (pre ++ ext.toList) = true := IsTestL_of_proper_suffix hmem hpre
    refine ⟨hflag, ?_⟩
    intro goos goarch c code
    unfold submitAction
    rw [resolveSubmitPath_isTest _ _ hflag]
  · decide

theorem C5_test_file_rejection_witness :
    (IsTestL ("foo".toList ++ ("_test.py" : String).toList) = true) ∧
    (submitAction "linux" "amd64" ⟨"http://exercism.io", "key", "root"⟩
      (("root" : String).toList ++ '/' :: ("foo".toList ++ ("_test.py" : String).toList)) "code" =
      .error .IsTestFile) ∧
    (IsTestL ("_test.py" : String).toList = false) :=
  ⟨(C5_test_file_rejection.1 "python" "_test.py" (by decide) "foo".toList (by decide)).1,
   (C5_test_file_rejection.1 "python" "_test.py" (by decide) "foo".toList (by decide)).2
     "linux" "amd64" ⟨"http://exercism.io", "key", "root"⟩ "code",
   C5_test_file_rejection.2 ("python", "_test.py") (by decide)⟩

/-! Step equations for Item.save and flag lemmas for its loop. -/

theorem item_save_statErr {it : Item} {fs : FS} (h : fs.stat it.path = .otherError) :
    it.save fs = ⟨it, fs, [], some "Error checking directory"⟩ := by
  simp only [Item.save, h]

theorem item_save_notExist {it : Item} {fs : FS} {o : ItemLoopOut}
    (h : fs.stat it.path = .notExist)
    (ho : itemLoop it.dir it.id it.files true it.isUpdated fs [] = o) :
    it.save fs = ⟨{ it with isNew := o.isNew, isUpdated := o.isUpdated }, o.fs, o.written, o.err⟩ := by
  subst ho
  simp only [Item.save, h]

theorem item_save_ok {it : Item} {fs : FS} {o : ItemLoopOut}
    (h : fs.stat it.path = .ok)
    (ho : itemLoop it.dir it.id it.files it.isNew it.isUpdated fs [] = o) :
    it.save fs = ⟨{ it with isNew := o.isNew, isUpdated := o.isUpdated }, o.fs, o.written, o.err⟩ := by
  subst ho
  simp only [Item.save, h]

/-- The isNew flag is decided before the loop and never changed by it. -/
theorem itemLoop_isNew (dir id : Path) (l : List (Path × String)) :
    ∀ (n u : Bool) (fs : FS) (w : List Path), (itemLoop dir id l n u fs w).isNew = n := by
  induction l with
  | nil => intro n u fs w; rfl
  | cons hd tl ih =>
    intro n u fs w
    obtain ⟨name, text⟩ := hd
    cases hmk : fs.mkdirAll (goDir (dir ++ '/' :: id ++ '/' :: name)) with
    | none => rw [itemLoop_cons_mkdir_none hmk]
    | some fs1 =>
      cases hst : fs1.stat (dir ++ '/' :: id ++ '/' :: name) with
      | ok =>
        rw [itemLoop_cons_ok hmk hst]
        exact ih n u fs1 w
      | otherError => rw [itemLoop_cons_statErr hmk hst]
      | notExist =>
        by_cases hwe : fs1.hasWriteErr (dir ++ '/' :: id ++ '/' :: name) = true
        · rw [itemLoop_cons_writeErr hmk hst hwe]
        · rw [itemLoop_cons_write hmk hst (Bool.eq_false_iff.mpr hwe)]
          exact ih n _ _ _

/-- The loop only appends to the written list. -/
theorem itemLoop_written_extend (dir id : Path) (l : List (Path × String)) :
    ∀ (n u : Bool) (fs : FS) (w : List Path),
      ∃ ext, (itemLoop dir id l n u fs w).written = w ++ ext := by
  induction l with
  | nil => intro n u fs w; exact ⟨[], by simp [itemLoop]⟩
  | cons hd tl ih =>
    intro n u fs w
    obtain ⟨name, text⟩ := hd
    cases hmk : fs.mkdirAll (goDir (dir ++ '/' :: id ++ '/' :: name)) with
    | none =>
      rw [itemLoop_cons_mkdir_none hmk]
      exact ⟨[], by simp⟩
    | some fs1 =>
      cases hst : fs1.stat (dir ++ '/' :: id ++ '/' :: name) with
      | ok =>
        rw [itemLoop_cons_ok hmk hst]
        exact ih n u fs1 w
      | otherError =>
        rw [itemLoop_cons_statErr hmk hst]
        exact ⟨[], by simp⟩
      | notExist =>
        by_cases hwe : fs1.hasWriteErr (dir ++ '/' :: id ++ '/' :: name) = true
        · rw [itemLoop_cons_writeErr hmk hst hwe]
          exact ⟨[], by simp⟩
        · rw [itemLoop_cons_write hmk hst (Bool.eq_false_iff.mpr hwe)]
          obtain ⟨ext, hext⟩ := ih n (if n then u else true)
            (fs1.writeFile (dir ++ '/' :: id ++ '/' :: name) text)
            (w ++ [dir ++ '/' :: id ++ '/' :: name])
          refine ⟨[dir ++ '/' :: id ++ '/' :: name] ++ ext, ?_⟩
          rw [hext]
          simp

/-- Once set, the isUpdated flag survives the rest of the loop. -/
theorem itemLoop_isUpdated_of_true (dir id : Path) (l : List (Path × String)) :
    ∀ (n : Bool) (fs : FS) (w : List Path), (itemLoop dir id l n true fs w).isUpdated = true := by
  induction l with
  | nil => intro n fs w; rfl
  | cons hd tl ih =>
    intro n fs w
    obtain ⟨name, text⟩ := hd
    cases hmk : fs.mkdirAll (goDir (dir ++ '/' :: id ++ '/' :: name)) with
    | none => rw [itemLoop_cons_mkdir_none hmk]
    | some fs1 =>
      cases hst : fs1.stat (dir ++ '/' :: id ++ '/' :: name) with
      | ok =>
        rw [itemLoop_cons_ok hmk hst]
        exact ih n fs1 w
      | otherError => rw [itemLoop_cons_statErr hmk hst]
      | notExist =>
        have hift : (if n then true else true) = true := by cases n <;> rfl
        by_cases hwe : fs1.hasWriteErr (dir ++ '/' :: id ++ '/' :: name) = true
        · rw [itemLoop_cons_writeErr hmk hst hwe]
          exact hift
        · rw [itemLoop_cons_write hmk hst (Bool.eq_false_iff.mpr hwe), hift]
          exact ih n _ _

/-- A successful loop that wrote nothing leaves the isUpdated flag as it
was. -/
theorem itemLoop_no_writes_same_flag (dir id : Path) (l : List (Path × String)) :
    ∀ (n u : Bool) (fs : FS) (w : List Path),
      (itemLoop dir id l n u fs w).err = none →
      (itemLoop dir id l n u fs w).written = w →
      (itemLoop dir id l n u fs w).isUpdated = u := by
  induction l with
  | nil => intro n u fs w _ _; rfl
  | cons hd tl ih =>
    intro n u fs w herr hwr
    obtain ⟨name, text⟩ := hd
    cases hmk : fs.mkdirAll (goDir (dir ++ '/' :: id ++ '/' :: name)) with
    | none =>
      rw [itemLoop_cons_mkdir_none hmk] at herr
      cases herr
    | some fs1 =>
      cases hst : fs1.stat (dir ++ '/' :: id ++ '/' :: name) with
      | ok =>
        rw [itemLoop_cons_ok hmk hst] at herr hwr ⊢
        exact ih n u fs1 w herr hwr
      | otherError =>
        rw [itemLoop_cons_statErr hmk hst] at herr
        cases herr
      | notExist =>
        by_cases hwe : fs1.hasWriteErr (dir ++ '/' :: id ++ '/' :: name) = true
        · rw [itemLoop_cons_writeErr hmk hst hwe] at herr
          cases herr
        · rw [itemLoop_cons_write hmk hst (Bool.eq_false_iff.mpr hwe)] at hwr
          obtain ⟨ext, hext⟩ := itemLoop_written_extend dir id tl n (if n then u else true)
            (fs1.writeFile (dir ++ '/' :: id ++ '/' :: name) text)
            (w ++ [dir ++ '/' :: id ++ '/' :: name])
          rw [hext] at hwr
          have := congrArg List.length hwr
          simp at this

/-- A successful loop on a pre-existing directory (isNew = false) that
wrote something sets isUpdated. -/
theorem itemLoop_writes_set_flag (dir id : Path) (l : List (Path × String)) :
    ∀ (u : Bool) (fs : FS) (w : List Path),
      (itemLoop dir id l false u fs w).err = none →
      (itemLoop dir id l false u fs w).written ≠ w →
      (itemLoop dir id l false u fs w).isUpdated = true := by
  induction l with
  | nil =>
    intro u fs w _ hwr
    exact absurd rfl hwr
  | cons hd tl ih =>
    intro u fs w herr hwr
    obtain ⟨name, text⟩ := hd
    cases hmk : fs.mkdirAll (goDir (dir ++ '/' :: id ++ '/' :: name)) with
    | none =>
      rw [itemLoop_cons_mkdir_none hmk] at herr
      cases herr
    | some fs1 =>
      cases hst : fs1.stat (dir ++ '/' :: id ++ '/' :: name) with
      | ok =>
        rw [itemLoop_cons_ok hmk hst] at herr hwr ⊢
        exact ih u fs1 w herr hwr
      | otherError =>
        rw [itemLoop_cons_statErr hmk hst] at herr
        cases herr
      | notExist =>
        by_cases hwe : fs1.hasWriteErr (dir ++ '/' :: id ++ '/' :: name) = true
        · rw [itemLoop_cons_writeErr hmk hst hwe] at herr
          cases herr
        · rw [itemLoop_cons_write hmk hst (Bool.eq_false_iff.mpr hwe)]
          have hift : (if false then u else true) = true := rfl
          rw [hift]
          exact itemLoop_isUpdated_of_true dir id tl false _ _

/-- C2: the classification derives from the directory state before the
loop and the per-file write outcomes. On a successful save with a fresh
item: no directory before implies New; directory present and at least one
file written implies Updated; directory present and nothing written
implies Unchanged. -/
theorem C2_classification (it : Item) (fs : FS)
    (hn : it.isNew = false) (hu : it.isUpdated = false)
    (herr : (it.save fs).err = none) :
    (fs.stat it.path = .notExist → (it.save fs).item.classification = .New) ∧
    (fs.stat it.path = .ok → (it.save fs).written ≠ [] →
      (it.save fs).item.classification = .Updated) ∧
    (fs.stat it.path = .ok → (it.save fs).written = [] →
      (it.save fs).item.classification = .Unchanged) := by
  refine ⟨?_, ?_, ?_⟩
  · intro hst
    rw [item_save_notExist hst rfl]
    simp [Item.classification, itemLoop_isNew]
  · intro hst hwr
    rw [item_save_ok hst rfl] at herr hwr ⊢
    rw [hn, hu] at herr hwr ⊢
    have h1 := itemLoop_isNew it.dir it.id it.files false false fs []
    have h2 := itemLoop_writes_set_flag it.dir it.id it.files false fs [] herr hwr
    simp [Item.classification, h1, h2]
  · intro hst hwr
    rw [item_save_ok hst rfl] at herr hwr ⊢
    rw [hn, hu] at herr hwr ⊢
    have h1 := itemLoop_isNew it.dir it.id it.files false false fs []
    have h2 := itemLoop_no_writes_same_flag it.dir it.id it.files false false fs [] herr hwr
    simp [Item.classification, h1, h2]

theorem C2_classification_witness :
    ((Item.save ⟨"e".toList, "leap".toList, [("leap.go".toList, "pkg")], false, false⟩
        ⟨[], [], [], []⟩).item.classification = .New) ∧
    ((Item.save ⟨"e".toList, "leap".toList,
        [("a.go".toList, "aa"), ("b.go".toList, "bb")], false, false⟩
        ⟨[("e/leap/a.go".toList, "old")], ["e/leap".toList], [], []⟩).item.classification =
      .Updated) ∧
    ((Item.save ⟨"e".toList, "leap".toList,
        [("a.go".toList, "aa"), ("b.go".toList, "bb")], false, false⟩
        ⟨[("e/leap/a.go".toList, "old"), ("e/leap/b.go".toList, "old2")],
          ["e/leap".toList], [], []⟩).item.classification = .Unchanged) :=
  ⟨(C2_classification ⟨"e".toList, "leap".toList, [("leap.go".toList, "pkg")], false, false⟩
      ⟨[], [], [], []⟩ rfl rfl (by decide)).1 (by decide),
   (C2_classification ⟨"e".toList, "leap".toList,
      [("a.go".toList, "aa"), ("b.go".toList, "bb")], false, false⟩
      ⟨[("e/leap/a.go".toList, "old")], ["e/leap".toList], [], []⟩ rfl rfl
      (by decide)).2.1 (by decide) (by decide),
   (C2_classification ⟨"e".toList, "leap".toList,
      [("a.go".toList, "aa"), ("b.go".toList, "bb")], false, false⟩
      ⟨[("e/leap/a.go".toList, "old"), ("e/leap/b.go".toList, "old2")],
        ["e/leap".toList], [], []⟩ rfl rfl (by decide)).2.2 (by decide) (by decide)⟩

/-! Path lemmas for the idempotence proof: goDir of a plain file inside a
directory, and length bounds on mkdirChain. -/

theorem dropWhile_no_slash (l rest : Path) (h : ∀ c ∈ l, c ≠ '/') :
    (l ++ '/' :: rest).dropWhile (fun c => c != '/') = '/' :: rest := by
  induction l with
  | nil => simp [List.dropWhile]
  | cons a as ih =>
    have ha : a ≠ '/' := h a (List.mem_cons_self a as)
    rw [List.cons_append, List.dropWhile_cons]
    have : (a != '/') = true := by simpa using ha
    rw [this]
    simp only [if_true]
    exact ih (fun c hc => h c (List.mem_cons_of_mem a hc))

theorem rev_head_of_app_sep {d id : Path} (h : id ≠ []) :
    ∃ c0, (d ++ '/' :: id).reverse.head? = some c0 ∧ c0 ∈ id := by
  have hrw : (d ++ '/' :: id).reverse = id.reverse ++ '/' :: d.reverse := by simp
  rw [hrw]
  cases hrev : id.reverse with
  | nil =>
    exact absurd (List.reverse_eq_nil_iff.mp hrev) h
  | cons a l =>
    refine ⟨a, by simp, ?_⟩
    have : a ∈ id.reverse := by rw [hrev]; exact List.mem_cons_self a l
    exact List.mem_reverse.mp this

theorem goDir_app_sep {pre name : Path} (hname : ∀ c ∈ name, c ≠ '/')
    {c0 : Char} (hh : pre.reverse.head? = some c0) (hc0 : c0 ≠ '/') :
    goDir (pre ++ '/' :: name) = pre := by
  obtain ⟨tl, htl⟩ : ∃ tl, pre.reverse = c0 :: tl := by
    cases hrev : pre.reverse with
    | nil => rw [hrev] at hh; cases hh
    | cons a l =>
      rw [hrev] at hh
      injection hh with hh
      subst hh
      exact ⟨l, rfl⟩
  have h1 : (pre ++ '/' :: name).reverse = name.reverse ++ '/' :: pre.reverse := by simp
  have h2 : (name.reverse ++ '/' :: pre.reverse).dropWhile (fun c => c != '/') =
      '/' :: pre.reverse :=
    dropWhile_no_slash _ _ (fun c hc => hname c (List.mem_reverse.mp hc))
  have h3 : ('/' :: pre.reverse).reverse = pre ++ ['/'] := by simp
  have h4 : (pre ++ ['/']).reverse.dropWhile (fun c => c == '/') = c0 :: tl := by
    have : (pre ++ ['/']).reverse = '/' :: pre.reverse := by simp
    rw [this, List.dropWhile_cons]
    simp only [beq_self_eq_true, if_true]
    rw [htl, List.dropWhile_cons]
    have : (c0 == '/') = false := by simpa using hc0
    rw [this]
    simp
  have h5 : (c0 :: tl).reverse = pre := by
    rw [← htl, List.reverse_reverse]
  simp only [goDir]
  rw [h1, h2, h3]
  rw [if_neg (by simp)]
  rw [h4, h5]
  rw [if_neg (by rintro rfl; rw [List.reverse_nil] at htl; cases htl)]

theorem goDir_nil : goDir [] = ['.'] := rfl

theorem len_dropWhile_le (p : Char → Bool) (l : Path) :
    (l.dropWhile p).length ≤ l.length := by
  induction l with
  | nil => exact Nat.le_refl 0
  | cons a as ih =>
    rw [List.dropWhile_cons]
    by_cases h : p a = true
    · rw [if_pos h]
      exact Nat.le_trans ih (Nat.le_succ _)
    · rw [if_neg h]

theorem goDir_length_le (p : Path) (h : p ≠ []) : (goDir p).length ≤ p.length := by
  have hp : 1 ≤ p.length := List.length_pos.mpr h
  simp only [goDir]
  by_cases h1 : (p.reverse.dropWhile (fun c => c != '/')).reverse = []
  · rw [if_pos h1]
    exact hp
  · rw [if_neg h1]
    by_cases h2 :
        ((p.reverse.dropWhile (fun c => c != '/')).reverse.reverse.dropWhile
          (fun c => c == '/')).reverse = []
    · rw [if_pos h2]
      exact hp
    · rw [if_neg h2]
      calc ((p.reverse.dropWhile (fun c => c != '/')).reverse.reverse.dropWhile
              (fun c => c == '/')).reverse.length
          = ((p.reverse.dropWhile (fun c => c != '/')).dropWhile
              (fun c => c == '/')).length := by simp
        _ ≤ (p.reverse.dropWhile (fun c => c != '/')).length := len_dropWhile_le _ _
        _ ≤ p.reverse.length := len_dropWhile_le _ _
        _ = p.length := List.length_reverse p

theorem mkdirChain_head_mem (n : Nat) (p : Path) : p ∈ mkdirChain n p := by
  cases n with
  | zero => exact List.mem_singleton.mpr rfl
  | succ m =>
    simp only [mkdirChain]
    split
    · exact List.mem_singleton.mpr rfl
    · exact List.mem_cons_self _ _

theorem mkdirChain_length_le (n : Nat) :
    ∀ (p q : Path), q ∈ mkdirChain n p → q.length ≤ p.length := by
  induction n with
  | zero =>
    intro p q hq
    rw [List.mem_singleton.mp hq]
  | succ m ih =>
    intro p q hq
    simp only [mkdirChain] at hq
    split at hq
    · rw [List.mem_singleton.mp hq]
    · rename_i hcond
      rcases List.mem_cons.mp hq with rfl | hq2
      · exact Nat.le_refl _
      · have hne : p ≠ [] := by
          rintro rfl
          exact hcond (Or.inr (Or.inl goDir_nil))
        exact Nat.le_trans (ih (goDir p) q hq2) (goDir_length_le p hne)

/-! Stat monotonicity: a path that stats .ok keeps doing so as the loops
only add files at fresh paths and only add directories. -/

theorem stat_ok_iff {fs : FS} {p : Path} :
    fs.stat p = .ok ↔
      fs.hasStatErr p = false ∧ (fs.fileExists p = true ∨ fs.dirExists p = true) := by
  unfold FS.stat
  by_cases h1 : fs.hasStatErr p = true
  · simp [h1]
  · have h1f : fs.hasStatErr p = false := Bool.eq_false_iff.mpr h1
    rw [h1f]
    simp only [Bool.false_eq_true, if_false]
    by_cases h2 : (fs.fileExists p || fs.dirExists p) = true
    · simp only [h2, if_true]
      simp only [Bool.or_eq_true] at h2
      simp [h2]
    · have h2f : (fs.fileExists p || fs.dirExists p) = false := Bool.eq_false_iff.mpr h2
      rw [h2f]
      simp only [Bool.false_eq_true, if_false]
      constructor
      · intro h; cases h
      · rintro ⟨-, h⟩
        rw [Bool.or_eq_false_iff] at h2f
        rcases h with h | h
        · rw [h2f.1] at h; cases h
        · rw [h2f.2] at h; cases h

theorem fileExists_congr {fs1 fs : FS} (hf : fs1.files = fs.files) (p : Path) :
    fs1.fileExists p = fs.fileExists p := by
  unfold FS.fileExists
  rw [fileContent_congr hf]

theorem dirExists_app {fs2 fs : FS} {D : List Path} (h : fs2.dirs = D ++ fs.dirs)
    (q : Path) (hq : fs.dirExists q = true) : fs2.dirExists q = true := by
  unfold FS.dirExists at hq ⊢
  rw [h]
  simp only [decide_eq_true_eq] at hq ⊢
  exact List.mem_append_right D hq

theorem fileExists_app_keys_ne {fs2 fs : FS} {E : List (Path × String)} {q : Path}
    (hE : fs2.files = E ++ fs.files) (hq : ∀ e ∈ E, ¬ e.1 = q)
    (h : fs.fileExists q = false) : fs2.fileExists q = false := by
  unfold FS.fileExists FS.fileContent at h ⊢
  rw [hE, find?_key_app_of_none hq]
  exact h

theorem stat_ok_mono {fs fs2 : FS} {p : Path}
    (hse : fs2.statErr = fs.statErr)
    (hf : ∀ C, fs.fileContent p = some C → fs2.fileContent p = some C)
    (hd : fs.dirExists p = true → fs2.dirExists p = true)
    (h : fs.stat p = .ok) : fs2.stat p = .ok := by
  obtain ⟨h1, h2⟩ := stat_ok_iff.mp h
  apply stat_ok_iff.mpr
  constructor
  · unfold FS.hasStatErr at h1 ⊢
    rw [hse]
    exact h1
  · rcases h2 with h2 | h2
    · left
      unfold FS.fileExists at h2 ⊢
      obtain ⟨C, hC⟩ := Option.isSome_iff_exists.mp h2
      rw [hf C hC]
      rfl
    · right
      exact hd h2

/-- A path that stats .ok before the Item.Save loop still stats .ok after
it. -/
theorem itemLoop_stat_ok_mono (dir id : Path) (l : List (Path × String)) (n u : Bool)
    (fs : FS) (w : List Path) {p : Path} (h : fs.stat p = .ok) :
    (itemLoop dir id l n u fs w).fs.stat p = .ok := by
  obtain ⟨E, D, hE, hD, hS, hW, hprop⟩ := itemLoop_fs_spec dir id l n u fs w
  apply stat_ok_mono hS ?_ ?_ h
  · intro C hC
    exact fileContent_app_none hE (fun e he => (hprop e he).1) hC
  · intro hq
    exact dirExists_app hD p hq

theorem itemLoop_dirExists_mono (dir id : Path) (l : List (Path × String)) (n u : Bool)
    (fs : FS) (w : List Path) {p : Path} (h : fs.dirExists p = true) :
    (itemLoop dir id l n u fs w).fs.dirExists p = true := by
  obtain ⟨E, D, hE, hD, hS, hW, hprop⟩ := itemLoop_fs_spec dir id l n u fs w
  exact dirExists_app hD p h

theorem mkdirAll_stat_ok {fs fs1 : FS} {d : Path} (hmk : fs.mkdirAll d = some fs1)
    {p : Path} (h : fs.stat p = .ok) : fs1.stat p = .ok := by
  obtain ⟨hf1, hs1, hw1, hd1, _⟩ := mkdirAll_some_spec hmk
  apply stat_ok_mono hs1 ?_ ?_ h
  · intro C hC
    rw [fileContent_congr hf1]
    exact hC
  · intro hq
    exact dirExists_app hd1 p hq

/-! After a successful Item.Save loop every target of the mapping stats
.ok, and a loop whose targets all stat .ok and whose directory chain is
file-free is a no-op. -/

theorem itemLoop_targets_ok (dir id : Path) (l : List (Path × String)) :
    ∀ (n u : Bool) (fs : FS) (w : List Path),
      (itemLoop dir id l n u fs w).err = none →
      ∀ nm tx, (nm, tx) ∈ l →
        (itemLoop dir id l n u fs w).fs.stat (dir ++ '/' :: id ++ '/' :: nm) = .ok := by
  induction l with
  | nil =>
    intro n u fs w _ nm tx hmem
    cases hmem
  | cons hd tl ih =>
    intro n u fs w herr nm tx hmem
    obtain ⟨name, text⟩ := hd
    cases hmk : fs.mkdirAll (goDir (dir ++ '/' :: id ++ '/' :: name)) with
    | none =>
      rw [itemLoop_cons_mkdir_none hmk] at herr
      cases herr
    | some fs1 =>
      cases hst : fs1.stat (dir ++ '/' :: id ++ '/' :: name) with
      | otherError =>
        rw [itemLoop_cons_statErr hmk hst] at herr
        cases herr
      | ok =>
        rw [itemLoop_cons_ok hmk hst] at herr ⊢
        rcases List.mem_cons.mp hmem with heq | hmem2
        · rw [Prod.mk.injEq] at heq
          obtain ⟨rfl, rfl⟩ := heq
          exact itemLoop_stat_ok_mono dir id tl n u fs1 w hst
        · exact ih n u fs1 w herr nm tx hmem2
      | notExist =>
        by_cases hwe : fs1.hasWriteErr (dir ++ '/' :: id ++ '/' :: name) = true
        · rw [itemLoop_cons_writeErr hmk hst hwe] at herr
          cases herr
        · rw [itemLoop_cons_write hmk hst (Bool.eq_false_iff.mpr hwe)] at herr ⊢
          rcases List.mem_cons.mp hmem with heq | hmem2
          · rw [Prod.mk.injEq] at heq
            obtain ⟨h1eq, h2eq⟩ := heq
            rw [h1eq]
            have hok : (fs1.writeFile (dir ++ '/' :: id ++ '/' :: name) text).stat
                (dir ++ '/' :: id ++ '/' :: name) = .ok := by
              apply stat_ok_of_parts
              · have hns := stat_notExist_not_statErr hst
                exact hns
              · left
                unfold FS.fileExists
                rw [writeFile_content_self]
                rfl
            exact itemLoop_stat_ok_mono dir id tl n _ _ _ hok
          · exact ih n _ _ _ herr nm tx hmem2

/-- The no-op loop: every target already stats .ok and the parent chain of
every target holds no regular file, so the loop writes nothing, keeps the
flags and the files, and succeeds. -/
theorem itemLoop_noop (dir id : Path) (l : List (Path × String)) :
    ∀ (n u : Bool) (fs : FS) (w : List Path),
      (∀ nm tx, (nm, tx) ∈ l → fs.stat (dir ++ '/' :: id ++ '/' :: nm) = .ok) →
      (∀ nm tx, (nm, tx) ∈ l →
        ∀ q ∈ mkdirChain (goDir (dir ++ '/' :: id ++ '/' :: nm)).length
          (goDir (dir ++ '/' :: id ++ '/' :: nm)), fs.fileExists q = false) →
      (itemLoop dir id l n u fs w).isNew = n ∧
      (itemLoop dir id l n u fs w).isUpdated = u ∧
      (itemLoop dir id l n u fs w).written = w ∧
      (itemLoop dir id l n u fs w).err = none ∧
      (itemLoop dir id l n u fs w).fs.files = fs.files := by
  induction l with
  | nil =>
    intro n u fs w _ _
    exact ⟨rfl, rfl, rfl, rfl, rfl⟩
  | cons hd tl ih =>
    intro n u fs w hstats hclean
    obtain ⟨name, text⟩ := hd
    obtain ⟨fs1, hmk⟩ :
        ∃ fs1, fs.mkdirAll (goDir (dir ++ '/' :: id ++ '/' :: name)) = some fs1 :=
      ⟨_, mkdirAll_some_of_nofile (hclean name text (List.mem_cons_self _ _))⟩
    obtain ⟨hf1, hs1, hw1, hd1, _⟩ := mkdirAll_some_spec hmk
    have hst : fs1.stat (dir ++ '/' :: id ++ '/' :: name) = .ok :=
      mkdirAll_stat_ok hmk (hstats name text (List.mem_cons_self _ _))
    rw [itemLoop_cons_ok hmk hst]
    have hres := ih n u fs1 w
      (fun nm tx hmem => mkdirAll_stat_ok hmk (hstats nm tx (List.mem_cons_of_mem _ hmem)))
      (fun nm tx hmem q hq => by
        rw [fileExists_congr hf1]
        exact hclean nm tx (List.mem_cons_of_mem _ hmem) q hq)
    refine ⟨hres.1, hres.2.1, hres.2.2.1, hres.2.2.2.1, ?_⟩
    rw [hres.2.2.2.2, hf1]

/-- The mkdir chain of the item directory keeps holding no regular file
through the loop: new files land strictly below the item directory. -/
theorem itemLoop_chain_still_clean (dir id : Path) (l : List (Path × String)) (n u : Bool)
    (fs : FS) (w : List Path)
    (hnames : ∀ nm tx, (nm, tx) ∈ l → nm ≠ [])
    (hclean : ∀ q ∈ mkdirChain (dir ++ '/' :: id).length (dir ++ '/' :: id),
      fs.fileExists q = false) :
    ∀ q ∈ mkdirChain (dir ++ '/' :: id).length (dir ++ '/' :: id),
      (itemLoop dir id l n u fs w).fs.fileExists q = false := by
  intro q hq
  obtain ⟨E, D, hE, hD, hS, hW, hprop⟩ := itemLoop_fs_spec dir id l n u fs w
  apply fileExists_app_keys_ne hE ?_ (hclean q hq)
  intro e he heq
  obtain ⟨hnone, nm, tx, hmem, hkey⟩ := hprop e he
  have hlen : q.length ≤ (dir ++ '/' :: id).length :=
    mkdirChain_length_le (dir ++ '/' :: id).length _ _ hq
  have hkeylen : e.1.length = dir.length + 1 + id.length + 1 + nm.length := by
    rw [hkey]
    simp
    omega
  have hnm : 1 ≤ nm.length := List.length_pos.mpr (hnames nm tx hmem)
  have hbase : (dir ++ '/' :: id).length = dir.length + 1 + id.length := by
    simp
    omega
  rw [heq] at hkeylen
  omega

/-! General path analysis for the idempotence proof: goDir applied to
base/{anything} either returns base itself or a strictly shorter
extension base/{e'}, provided base does not end in a separator; iterating
inside mkdirChain therefore always reaches base. File names are fully
arbitrary (nested, empty, or slash-decorated). -/

theorem stat_notExist_not_dirExists {fs : FS} {p : Path}
    (h : fs.stat p = .notExist) : fs.dirExists p = false := by
  unfold FS.stat at h
  split at h
  · exact absurd h (by simp)
  · split at h
    · exact absurd h (by simp)
    · rename_i hex
      simp only [Bool.or_eq_true, not_or] at hex
      exact Bool.eq_false_iff.mpr hex.2

theorem writeFile_dirExists (fs : FS) (p q : Path) (t : String) :
    (fs.writeFile q t).dirExists p = fs.dirExists p := rfl

theorem writeFile_fileExists_other {fs : FS} {p q : Path} {t : String} (h : q ≠ p) :
    (fs.writeFile q t).fileExists p = fs.fileExists p := by
  unfold FS.fileExists
  rw [writeFile_content_other h]

theorem dropWhile_head_false (p : Char → Bool) (l : Path) (hne : l.dropWhile p ≠ []) :
    ∃ a t, l.dropWhile p = a :: t ∧ p a = false := by
  induction l with
  | nil => simp [List.dropWhile] at hne
  | cons a as ih =>
    rw [List.dropWhile_cons] at hne ⊢
    by_cases hpa : p a = true
    · rw [if_pos hpa] at hne ⊢
      exact ih hne
    · rw [if_neg hpa] at hne ⊢
      exact ⟨a, as, rfl, Bool.eq_false_iff.mpr hpa⟩

theorem base_getLast {d id : Path} (h : id ≠ []) :
    (d ++ '/' :: id).reverse.head? = id.getLast? := by
  rw [List.head?_reverse, List.getLast?_append]
  cases id with
  | nil => exact absurd rfl h
  | cons a t =>
    rw [List.getLast?_cons_cons]
    cases hgl : (a :: t).getLast? with
    | none => exact absurd (List.getLast?_eq_none_iff.mp hgl) (by simp)
    | some c => rfl

/-- Evaluate goDir through the two dropWhile passes on the reversed path. -/
theorem goDir_eq_of_drops {p pr ts : Path}
    (h1 : p.reverse.dropWhile (fun c => c != '/') = pr)
    (h2 : pr ≠ [])
    (h3 : pr.dropWhile (fun c => c == '/') = ts)
    (h4 : ts ≠ []) :
    goDir p = ts.reverse := by
  simp only [goDir]
  rw [h1]
  rw [if_neg (by simpa using h2)]
  rw [List.reverse_reverse, h3]
  rw [if_neg (by simpa using h4)]

/-- Splitting step: goDir of base/{e} is base itself or base/{e'} with e'
strictly shorter, whenever base ends in a non-separator character. -/
theorem goDir_split (base e : Path) {c0 : Char}
    (hh : base.reverse.head? = some c0) (hc0 : c0 ≠ '/') :
    goDir (base ++ '/' :: e) = base ∨
    ∃ e', goDir (base ++ '/' :: e) = base ++ '/' :: e' ∧ e'.length < e.length := by
  obtain ⟨bt, hbt⟩ : ∃ bt, base.reverse = c0 :: bt := by
    cases hrev : base.reverse with
    | nil => rw [hrev] at hh; cases hh
    | cons a l =>
      rw [hrev] at hh
      injection hh with hh
      subst hh
      exact ⟨l, rfl⟩
  have hbrne : base.reverse ≠ [] := by rw [hbt]; simp
  have hc0b : (c0 == '/') = false := by simpa using hc0
  have h1 : (base ++ '/' :: e).reverse = e.reverse ++ '/' :: base.reverse := by simp
  have hbrdrop : base.reverse.dropWhile (fun c => c == '/') = base.reverse := by
    rw [hbt, List.dropWhile_cons, hc0b]
    simp
  have hsepdrop : ('/' :: base.reverse).dropWhile (fun c => c == '/') = base.reverse := by
    rw [List.dropWhile_cons]
    simp only [beq_self_eq_true, if_true]
    exact hbrdrop
  by_cases hd : e.reverse.dropWhile (fun c => c != '/') = []
  · left
    have hA : (base ++ '/' :: e).reverse.dropWhile (fun c => c != '/') =
        '/' :: base.reverse := by
      rw [h1, List.dropWhile_append, hd]
      simp [List.dropWhile_cons]
    have := goDir_eq_of_drops hA (by simp) hsepdrop hbrne
    rw [this, List.reverse_reverse]
  · obtain ⟨a, dt, hdeq, hpa⟩ := dropWhile_head_false (fun c => c != '/') e.reverse hd
    have ha : a = '/' := by simpa using hpa
    subst ha
    have hA : (base ++ '/' :: e).reverse.dropWhile (fun c => c != '/') =
        ('/' :: dt) ++ '/' :: base.reverse := by
      rw [h1, List.dropWhile_append, hdeq]
      simp
    have hdtlen : dt.length + 1 ≤ e.length := by
      have := len_dropWhile_le (fun c => c != '/') e.reverse
      rw [hdeq] at this
      simpa using this
    by_cases hd2 : dt.dropWhile (fun c => c == '/') = []
    · left
      have h3 : (('/' :: dt) ++ '/' :: base.reverse).dropWhile (fun c => c == '/') =
          base.reverse := by
        rw [List.cons_append, List.dropWhile_cons]
        simp only [beq_self_eq_true, if_true]
        rw [List.dropWhile_append, hd2]
        simp only [List.isEmpty_nil, if_true]
        exact hsepdrop
      have := goDir_eq_of_drops hA (by simp) h3 hbrne
      rw [this, List.reverse_reverse]
    · right
      have h3 : (('/' :: dt) ++ '/' :: base.reverse).dropWhile (fun c => c == '/') =
          dt.dropWhile (fun c => c == '/') ++ '/' :: base.reverse := by
        rw [List.cons_append, List.dropWhile_cons]
        simp only [beq_self_eq_true, if_true]
        rw [List.dropWhile_append]
        rw [if_neg (by simpa using hd2)]
      have h4 : dt.dropWhile (fun c => c == '/') ++ '/' :: base.reverse ≠ [] := by simp
      have hgd := goDir_eq_of_drops hA (by simp) h3 h4
      refine ⟨(dt.dropWhile (fun c => c == '/')).reverse, ?_, ?_⟩
      · rw [hgd]
        simp
      · have hdrop2 := len_dropWhile_le (fun c => c == '/') dt
        simp only [List.length_reverse]
        omega

/-- Iterating goDir inside mkdirChain from base/{e} always passes through
base, for any extension e, given enough fuel. -/
theorem base_mem_chain (base : Path) {c0 : Char}
    (hh : base.reverse.head? = some c0) (hc0 : c0 ≠ '/') (hb2 : 2 ≤ base.length) :
    ∀ (fuel : Nat) (e : Path), e.length < fuel →
      base ∈ mkdirChain fuel (base ++ '/' :: e) := by
  intro fuel
  induction fuel with
  | zero =>
    intro e he
    exact absurd he (Nat.not_lt_zero _)
  | succ n ih =>
    intro e he
    have hsplit := goDir_split base e hh hc0
    have hcond : ¬(goDir (base ++ '/' :: e) = base ++ '/' :: e ∨
        goDir (base ++ '/' :: e) = ['.'] ∨ goDir (base ++ '/' :: e) = ['/']) := by
      rcases hsplit with hs | ⟨e', hs, hlt⟩ <;> rw [hs]
      · rintro (h | h | h)
        · have := congrArg List.length h
          simp at this
        · have := congrArg List.length h
          simp at this
          omega
        · have := congrArg List.length h
          simp at this
          omega
      · rintro (h | h | h)
        · have := congrArg List.length h
          simp at this
          omega
        · have := congrArg List.length h
          simp at this
          omega
        · have := congrArg List.length h
          simp at this
          omega
    simp only [mkdirChain]
    rw [if_neg hcond]
    rcases hsplit with hs | ⟨e', hs, hlt⟩ <;> rw [hs]
    · exact List.mem_cons_of_mem _ (mkdirChain_head_mem n base)
    · exact List.mem_cons_of_mem _ (ih e' (by omega))

/-- base is created by the MkdirAll chain of any file base/{e}. -/
theorem base_mem_chain_start (base e : Path) {c0 : Char}
    (hh : base.reverse.head? = some c0) (hc0 : c0 ≠ '/') (hb2 : 2 ≤ base.length) :
    base ∈ mkdirChain (goDir (base ++ '/' :: e)).length (goDir (base ++ '/' :: e)) := by
  rcases goDir_split base e hh hc0 with hs | ⟨e', hs, hlt⟩ <;> rw [hs]
  · exact mkdirChain_head_mem _ _
  · apply base_mem_chain base hh hc0 hb2
    simp
    omega

/-- A path that is a directory and not a file stays that way through the
loop: writes happen only at paths that stat as missing, hence at paths
that are not directories. -/
theorem itemLoop_dir_stays_clean (dir id : Path) (l : List (Path × String)) :
    ∀ (n u : Bool) (fs : FS) (w : List Path) (q : Path),
      fs.dirExists q = true → fs.fileExists q = false →
      (itemLoop dir id l n u fs w).fs.dirExists q = true ∧
      (itemLoop dir id l n u fs w).fs.fileExists q = false := by
  induction l with
  | nil =>
    intro n u fs w q hdq hfq
    exact ⟨hdq, hfq⟩
  | cons hd tl ih =>
    intro n u fs w q hdq hfq
    obtain ⟨name, text⟩ := hd
    cases hmk : fs.mkdirAll (goDir (dir ++ '/' :: id ++ '/' :: name)) with
    | none =>
      rw [itemLoop_cons_mkdir_none hmk]
      exact ⟨hdq, hfq⟩
    | some fs1 =>
      obtain ⟨hf1, hs1, hw1, hd1, _⟩ := mkdirAll_some_spec hmk
      have hdq1 : fs1.dirExists q = true := dirExists_app hd1 q hdq
      have hfq1 : fs1.fileExists q = false := by
        rw [fileExists_congr hf1]
        exact hfq
      cases hst : fs1.stat (dir ++ '/' :: id ++ '/' :: name) with
      | ok =>
        rw [itemLoop_cons_ok hmk hst]
        exact ih n u fs1 w q hdq1 hfq1
      | otherError =>
        rw [itemLoop_cons_statErr hmk hst]
        exact ⟨hdq1, hfq1⟩
      | notExist =>
        have hneq : dir ++ '/' :: id ++ '/' :: name ≠ q := by
          intro heq
          have hnd := stat_notExist_not_dirExists hst
          rw [heq, hdq1] at hnd
          cases hnd
        by_cases hwe : fs1.hasWriteErr (dir ++ '/' :: id ++ '/' :: name) = true
        · rw [itemLoop_cons_writeErr hmk hst hwe]
          exact ⟨hdq1, hfq1⟩
        · rw [itemLoop_cons_write hmk hst (Bool.eq_false_iff.mpr hwe)]
          apply ih
          · rw [writeFile_dirExists]
            exact hdq1
          · rw [writeFile_fileExists_other hneq]
            exact hfq1

/-- After a successful loop, no element of any target's MkdirAll chain is
a regular file: each chain was verified file-free when its file was
processed, became directories, and directories are never overwritten. -/
theorem itemLoop_chains_clean_after (dir id : Path) (l : List (Path × String)) :
    ∀ (n u : Bool) (fs : FS) (w : List Path),
      (itemLoop dir id l n u fs w).err = none →
      ∀ nm tx, (nm, tx) ∈ l →
        ∀ q ∈ mkdirChain (goDir (dir ++ '/' :: id ++ '/' :: nm)).length
            (goDir (dir ++ '/' :: id ++ '/' :: nm)),
          (itemLoop dir id l n u fs w).fs.fileExists q = false := by
  induction l with
  | nil =>
    intro n u fs w _ nm tx hmem
    cases hmem
  | cons hdp tl ih =>
    intro n u fs w herr nm tx hmem q hq
    obtain ⟨name, text⟩ := hdp
    cases hmk : fs.mkdirAll (goDir (dir ++ '/' :: id ++ '/' :: name)) with
    | none =>
      rw [itemLoop_cons_mkdir_none hmk] at herr
      cases herr
    | some fs1 =>
      obtain ⟨hf1, hs1, hw1, hd1, hnof⟩ := mkdirAll_some_spec hmk
      cases hst : fs1.stat (dir ++ '/' :: id ++ '/' :: name) with
      | otherError =>
        rw [itemLoop_cons_statErr hmk hst] at herr
        cases herr
      | ok =>
        rw [itemLoop_cons_ok hmk hst] at herr ⊢
        rcases List.mem_cons.mp hmem with heq | hmem2
        · rw [Prod.mk.injEq] at heq
          obtain ⟨h1eq, h2eq⟩ := heq
          rw [h1eq] at hq
          have hdq1 : fs1.dirExists q = true := by
            unfold FS.dirExists
            rw [hd1]
            exact decide_eq_true (List.mem_append_left _ hq)
          have hfq1 : fs1.fileExists q = false := by
            rw [fileExists_congr hf1]
            exact hnof q hq
          exact (itemLoop_dir_stays_clean dir id tl n u fs1 w q hdq1 hfq1).2
        · exact ih n u fs1 w herr nm tx hmem2 q hq
      | notExist =>
        by_cases hwe : fs1.hasWriteErr (dir ++ '/' :: id ++ '/' :: name) = true
        · rw [itemLoop_cons_writeErr hmk hst hwe] at herr
          cases herr
        · rw [itemLoop_cons_write hmk hst (Bool.eq_false_iff.mpr hwe)] at herr ⊢
          rcases List.mem_cons.mp hmem with heq | hmem2
          · rw [Prod.mk.injEq] at heq
            obtain ⟨h1eq, h2eq⟩ := heq
            rw [h1eq] at hq
            have hdq1 : fs1.dirExists q = true := by
              unfold FS.dirExists
              rw [hd1]
              exact decide_eq_true (List.mem_append_left _ hq)
            have hfq1 : fs1.fileExists q = false := by
              rw [fileExists_congr hf1]
              exact hnof q hq
            have hneq : dir ++ '/' :: id ++ '/' :: name ≠ q := by
              intro heq2
              have hnd := stat_notExist_not_dirExists hst
              rw [heq2, hdq1] at hnd
              cases hnd
            refine (itemLoop_dir_stays_clean dir id tl n _
              (fs1.writeFile (dir ++ '/' :: id ++ '/' :: name) text)
              (w ++ [dir ++ '/' :: id ++ '/' :: name]) q ?_ ?_).2
            · rw [writeFile_dirExists]
              exact hdq1
            · rw [writeFile_fileExists_other hneq]
              exact hfq1
          · exact ih n _ _ _ herr nm tx hmem2 q hq

/-- Successful first step of a nonempty loop: any member of the first
file's MkdirAll chain is a directory of the final filesystem. -/
theorem itemLoop_first_step (dir id nm0 : Path) (tx0 : String)
    (tl : List (Path × String)) (n u : Bool) (fs : FS) (w : List Path) (p : Path)
    (hp : p ∈ mkdirChain (goDir (dir ++ '/' :: id ++ '/' :: nm0)).length
      (goDir (dir ++ '/' :: id ++ '/' :: nm0)))
    (herr : (itemLoop dir id ((nm0, tx0) :: tl) n u fs w).err = none) :
    (itemLoop dir id ((nm0, tx0) :: tl) n u fs w).fs.dirExists p = true := by
  cases hmk : fs.mkdirAll (goDir (dir ++ '/' :: id ++ '/' :: nm0)) with
  | none =>
    rw [itemLoop_cons_mkdir_none hmk] at herr
    cases herr
  | some fs1 =>
    obtain ⟨hf1, hs1, hw1, hd1, _⟩ := mkdirAll_some_spec hmk
    have hdir1 : fs1.dirExists p = true := by
      unfold FS.dirExists
      rw [hd1]
      exact decide_eq_true (List.mem_append_left _ hp)
    cases hst : fs1.stat (dir ++ '/' :: id ++ '/' :: nm0) with
    | otherError =>
      rw [itemLoop_cons_statErr hmk hst] at herr
      cases herr
    | ok =>
      rw [itemLoop_cons_ok hmk hst]
      exact itemLoop_dirExists_mono dir id tl n u fs1 w hdir1
    | notExist =>
      by_cases hwe : fs1.hasWriteErr (dir ++ '/' :: id ++ '/' :: nm0) = true
      · rw [itemLoop_cons_writeErr hmk hst hwe] at herr
        cases herr
      · rw [itemLoop_cons_write hmk hst (Bool.eq_false_iff.mpr hwe)]
        apply itemLoop_dirExists_mono
        rw [writeFile_dirExists]
        exact hdir1

/-- Running Item.Save again on the filesystem a successful first loop left
behind writes nothing and leaves a fresh item classified Unchanged, for
arbitrary file names. -/
theorem item_second_call (it : Item) (n u : Bool) (fs : FS)
    (hn : it.isNew = false) (hu : it.isUpdated = false)
    (hidne : it.id ≠ []) (hidlast : it.id.getLast? ≠ some '/')
    (hne : it.files ≠ [])
    (herr : (itemLoop it.dir it.id it.files n u fs []).err = none)
    (hnse : fs.hasStatErr it.path = false) :
    ((it.save (itemLoop it.dir it.id it.files n u fs []).fs).err = none) ∧
    ((it.save (itemLoop it.dir it.id it.files n u fs []).fs).written = []) ∧
    ((it.save (itemLoop it.dir it.id it.files n u fs []).fs).item.classification =
      .Unchanged) := by
  obtain ⟨⟨nm0, tx0⟩, tl, hl⟩ : ∃ h t, it.files = h :: t := by
    cases hfl : it.files with
    | nil => exact absurd hfl hne
    | cons a b => exact ⟨a, b, rfl⟩
  obtain ⟨c0, hgl⟩ : ∃ c, it.id.getLast? = some c := by
    cases hx : it.id.getLast? with
    | none => exact absurd (List.getLast?_eq_none_iff.mp hx) hidne
    | some c => exact ⟨c, rfl⟩
  have hc0 : c0 ≠ '/' := by
    intro hcc
    apply hidlast
    rw [hgl, hcc]
  have hh2 : (it.dir ++ '/' :: it.id).reverse.head? = some c0 := by
    rw [base_getLast hidne, hgl]
  have hb2 : 2 ≤ (it.dir ++ '/' :: it.id).length := by
    have hidlen : 1 ≤ it.id.length := List.length_pos.mpr hidne
    simp
    omega
  have hpmem := base_mem_chain_start (it.dir ++ '/' :: it.id) nm0 hh2 hc0 hb2
  rw [hl] at herr
  have hdirex := itemLoop_first_step it.dir it.id nm0 tx0 tl n u fs []
    (it.dir ++ '/' :: it.id) hpmem herr
  obtain ⟨E, D, hE, hD, hS, hW, hprop⟩ :=
    itemLoop_fs_spec it.dir it.id ((nm0, tx0) :: tl) n u fs []
  have hnse2 : (itemLoop it.dir it.id ((nm0, tx0) :: tl) n u fs []).fs.hasStatErr
      it.path = false := by
    unfold FS.hasStatErr at hnse ⊢
    rw [hS]
    exact hnse
  have hst2 : (itemLoop it.dir it.id ((nm0, tx0) :: tl) n u fs []).fs.stat it.path = .ok := by
    apply stat_ok_of_parts hnse2
    right
    exact hdirex
  rw [hl]
  rw [item_save_ok hst2 rfl]
  rw [hn, hu, hl]
  have htargets := itemLoop_targets_ok it.dir it.id ((nm0, tx0) :: tl) n u fs [] herr
  have hchains := itemLoop_chains_clean_after it.dir it.id ((nm0, tx0) :: tl) n u fs [] herr
  have hnoop := itemLoop_noop it.dir it.id ((nm0, tx0) :: tl) false false
    (itemLoop it.dir it.id ((nm0, tx0) :: tl) n u fs []).fs []
    (fun nm tx hmem => htargets nm tx hmem)
    (fun nm tx hmem q hq => hchains nm tx hmem q hq)
  refine ⟨hnoop.2.2.2.1, hnoop.2.2.1, ?_⟩
  simp [Item.classification, hnoop.1, hnoop.2.1]

/-- C3 as stated is false: for an assignment with an empty file mapping at
a fresh root, the first save succeeds without creating the item directory,
so the second save performs zero writes but classifies New, not
Unchanged. -/
theorem C3_counterexample :
    ((Item.save ⟨"e".toList, "leap".toList, [], false, false⟩ ⟨[], [], [], []⟩).err = none) ∧
    ((Item.save ⟨"e".toList, "leap".toList, [], false, false⟩
        (Item.save ⟨"e".toList, "leap".toList, [], false, false⟩
          ⟨[], [], [], []⟩).fs).err = none) ∧
    ((Item.save ⟨"e".toList, "leap".toList, [], false, false⟩
        (Item.save ⟨"e".toList, "leap".toList, [], false, false⟩
          ⟨[], [], [], []⟩).fs).written = []) ∧
    ¬ ((Item.save ⟨"e".toList, "leap".toList, [], false, false⟩
        (Item.save ⟨"e".toList, "leap".toList, [], false, false⟩
          ⟨[], [], [], []⟩).fs).item.classification = .Unchanged) := by
  decide

/-- C3 amended: for an assignment with at least one file — the file names
fully arbitrary, nested relative paths included — whose first save
succeeds, the second save of the same assignment performs zero file
writes, succeeds, and classifies Unchanged. The id only needs to be
nonempty and not end in the separator, the shape every track/slug
identifier has. -/
theorem C3_idempotent_nonempty (it : Item) (fs : FS)
    (hn : it.isNew = false) (hu : it.isUpdated = false)
    (hne : it.files ≠ [])
    (hidne : it.id ≠ []) (hidlast : it.id.getLast? ≠ some '/')
    (h1 : (it.save fs).err = none) :
    ((it.save (it.save fs).fs).err = none) ∧
    ((it.save (it.save fs).fs).written = []) ∧
    ((it.save (it.save fs).fs).item.classification = .Unchanged) := by
  cases hst0 : fs.stat it.path with
  | otherError =>
    rw [item_save_statErr hst0] at h1
    cases h1
  | ok =>
    rw [item_save_ok hst0 rfl] at h1 ⊢
    rw [hn, hu] at h1 ⊢
    exact item_second_call it false false fs hn hu hidne hidlast hne h1
      (stat_ok_not_statErr hst0)
  | notExist =>
    rw [item_save_notExist hst0 rfl] at h1 ⊢
    rw [hu] at h1 ⊢
    exact item_second_call it true false fs hn hu hidne hidlast hne h1
      (stat_notExist_not_statErr hst0)

theorem C3_idempotent_nonempty_witness :
    ((Item.save ⟨"e".toList, "leap".toList, [("sub/a.go".toList, "pkg")], false, false⟩
        (Item.save ⟨"e".toList, "leap".toList, [("sub/a.go".toList, "pkg")], false, false⟩
          ⟨[], [], [], []⟩).fs).err = none) ∧
    ((Item.save ⟨"e".toList, "leap".toList, [("sub/a.go".toList, "pkg")], false, false⟩
        (Item.save ⟨"e".toList, "leap".toList, [("sub/a.go".toList, "pkg")], false, false⟩
          ⟨[], [], [], []⟩).fs).written = []) ∧
    ((Item.save ⟨"e".toList, "leap".toList, [("sub/a.go".toList, "pkg")], false, false⟩
        (Item.save ⟨"e".toList, "leap".toList, [("sub/a.go".toList, "pkg")], false, false⟩
          ⟨[], [], [], []⟩).fs).item.classification = .Unchanged) :=
  C3_idempotent_nonempty ⟨"e".toList, "leap".toList, [("sub/a.go".toList, "pkg")], false, false⟩
    ⟨[], [], [], []⟩ rfl rfl (by decide) (by decide) (by decide) (by decide)

end ExercismCLI
